import Mathlib

/-!
# Verification development for the eksveesix virtual-memory core

Shallow embedding of `kalloc.c` (page-frame allocator with per-frame
counters), the page-fault resolver of `trap.c` and `mmap`/`munmap` of
`sysfile.c`, followed by theorems about them.

Conventions of the embedding.
* `uint` values and pointers are natural numbers; arithmetic that the C code
  performs on `uint` is reduced modulo `2 ^ 32` explicitly (`sub32`, `add32`).
* `int` values are integers.
* Physical memory is a map from kernel virtual byte addresses to bytes; the
  free list is intrusive, exactly as in the source: the `next` pointer of a
  free frame is the little-endian word stored in its first four bytes.
* A kernel `panic` (and a null-pointer dereference) is the result `none`.
* The spinlock of `kmem` is not modelled: the embedding is sequential.
-/

namespace Xv6

/-! ## Constants and machine arithmetic -/

/-- Page size in bytes, `PGSIZE` (spec section 6; `mmaptest.c` line 6). -/
def PGSIZE : Nat := 4096

/-- Number of values of a 32-bit machine word. -/
def WORD : Nat := 4294967296

/-- Modelled from the spec: `memlayout.h`, `mmu.h` and the linker script are
not among the sources, so the constants they define are parameters of the
embedding: `KERNBASE`, `PHYSTOP`, the linker symbol `end` (here `kend`) and the
software-defined copy-on-write bit `PTE_COW` of a page-table entry. -/
structure Layout where
  KERNBASE : Nat
  PHYSTOP : Nat
  kend : Nat
  PTE_COW : Nat

/-- The layout of stock xv6 with the copy-on-write bit in the first
software-available PTE bit; used for concrete evaluations. -/
def xv6 : Layout :=
  { KERNBASE := 2147483648, PHYSTOP := 234881024, kend := 2148622336, PTE_COW := 512 }

/-- The constraints under which the parameters describe a kernel address
space: `KERNBASE` is a non-zero page boundary, the kernel image ends above it,
and all of physical memory is mapped at `KERNBASE` inside the 32-bit space. -/
def Layout.WF (L : Layout) : Prop :=
  0 < L.KERNBASE ∧ L.KERNBASE % PGSIZE = 0 ∧ L.KERNBASE ≤ L.kend ∧
    L.KERNBASE + L.PHYSTOP ≤ WORD

instance (L : Layout) : Decidable L.WF := by
  unfold Layout.WF; infer_instance

/-- Subtraction of `uint` values: `a - b` modulo `2 ^ 32`. -/
def sub32 (a b : Nat) : Nat := (a % WORD + WORD - b % WORD) % WORD

/-- Addition of `uint` values: `a + b` modulo `2 ^ 32`. -/
def add32 (a b : Nat) : Nat := (a + b) % WORD

/-- Modelled from the spec: `memlayout.h` is not among the sources;
`V2P(a)` is `((uint) a) - KERNBASE`. -/
def V2P (L : Layout) (a : Nat) : Nat := sub32 a L.KERNBASE

/-- Modelled from the spec: `memlayout.h` is not among the sources;
`P2V(a)` is `a + KERNBASE`. -/
def P2V (L : Layout) (a : Nat) : Nat := add32 a L.KERNBASE

/-- The macro `NPAGEFRAMES` of `kalloc.c`: `PHYSTOP / PGSIZE`. -/
def NPAGEFRAMES (L : Layout) : Nat := L.PHYSTOP / PGSIZE

/-- Index of the counter of the frame at kernel virtual address `v`:
`((uint)v - KERNBASE) / PGSIZE` (`kalloc.c` lines 79 and 128). -/
def frameIndex (L : Layout) (v : Nat) : Nat := sub32 v L.KERNBASE / PGSIZE

/-! ## Physical memory -/

/-- Physical memory seen through the kernel mapping: byte address to byte. -/
abbrev Mem := Nat → Nat

/-- The C library call `memset(v, c, n)`. -/
def memset (m : Mem) (v c n : Nat) : Mem :=
  fun a => if v ≤ a ∧ a < v + n then c else m a

/-- The C library call `memmove(dst, src, n)`: the bytes of the source as they
were before the call end up at the destination. -/
def memmove (m : Mem) (dst src n : Nat) : Mem :=
  fun a => if dst ≤ a ∧ a < dst + n then m (src + (a - dst)) else m a

/-- Load of a 32-bit little-endian word: the read of `r->next`. -/
def readPtr (m : Mem) (a : Nat) : Nat :=
  m a % 256 + 256 * (m (a + 1) % 256) + 65536 * (m (a + 2) % 256) +
    16777216 * (m (a + 3) % 256)

/-- Store of a 32-bit little-endian word: the write of `r->next`. -/
def writePtr (m : Mem) (a v : Nat) : Mem :=
  fun x =>
    if x = a then v % 256
    else if x = a + 1 then v / 256 % 256
    else if x = a + 2 then v / 65536 % 256
    else if x = a + 3 then v / 16777216 % 256
    else m x

/-! ## The page-frame allocator (`kalloc.c`) -/

/-- The globals of `kalloc.c` together with physical memory:
`kmem.freelist` (0 is the null pointer), `frees`, `pageframe_counters`. -/
structure KState where
  freelist : Nat
  frees : Int
  pageframe_counters : Nat → Int
  mem : Mem

/-- The check at the top of `kfree` (`kalloc.c` line 75), negated: the pointer
is page-aligned, not below `end`, and its physical address is below
`PHYSTOP`. -/
def validFrame (L : Layout) (v : Nat) : Prop :=
  ¬ (v % PGSIZE ≠ 0 ∨ v < L.kend ∨ V2P L v ≥ L.PHYSTOP)

instance (L : Layout) (v : Nat) : Decidable (validFrame L v) := by
  unfold validFrame; infer_instance

/-- The function `kfree` of `kalloc.c` (lines 70-106); `none` is the panic. -/
def kfree (L : Layout) (s : KState) (v : Nat) : Option KState :=
  if v % PGSIZE ≠ 0 ∨ v < L.kend ∨ V2P L v ≥ L.PHYSTOP then none
  else
    let i := frameIndex L v
    let rc : Nat → Int :=
      if s.pageframe_counters i ≠ 0 then
        Function.update s.pageframe_counters i (s.pageframe_counters i - 1)
      else s.pageframe_counters
    if rc i = 0 then
      some { freelist := v
             frees := s.frees + 1
             pageframe_counters := rc
             mem := writePtr (memset s.mem v 1 PGSIZE) v s.freelist }
    else
      some { s with pageframe_counters := rc }

/-- The function `kalloc` of `kalloc.c` (lines 115-135): the returned pointer
(0 is null) and the state afterwards. -/
def kalloc (L : Layout) (s : KState) : Nat × KState :=
  let r := s.freelist
  if r ≠ 0 then
    (r, { freelist := readPtr s.mem r
          frees := s.frees - 1
          pageframe_counters := Function.update s.pageframe_counters (frameIndex L r) 1
          mem := s.mem })
  else (r, s)

/-- The system call `sys_frees` of `kalloc.c` (lines 137-140). -/
def sys_frees (s : KState) : Int := s.frees

/-- The loop of `freerange` (`kalloc.c` lines 62-63), `n` iterations left:
`kfree(p)` while `p + PGSIZE <= vend`. -/
def freerangeLoop (L : Layout) (vend : Nat) : Nat → Nat → KState → Option KState
  | 0, _, s => some s
  | n + 1, p, s =>
    if p + PGSIZE ≤ vend then
      match kfree L s p with
      | some s1 => freerangeLoop L vend n (p + PGSIZE) s1
      | none => none
    else some s

/-- Modelled from the spec: `mmu.h` is not among the sources; `PGROUNDUP(a)`
rounds a `uint` up to the next page boundary (modulo `2 ^ 32`). -/
def PGROUNDUP (a : Nat) : Nat := (a + PGSIZE - 1) % WORD / PGSIZE * PGSIZE

/-- Modelled from the spec: `mmu.h` is not among the sources;
`PGROUNDDOWN(a)` rounds down to a page boundary. -/
def PGROUNDDOWN (a : Nat) : Nat := a / PGSIZE * PGSIZE

/-- The function `freerange` of `kalloc.c` (lines 57-64). The loop runs at
most `vend / PGSIZE` times. -/
def freerange (L : Layout) (s : KState) (vstart vend : Nat) : Option KState :=
  freerangeLoop L vend (vend / PGSIZE) (PGROUNDUP vstart) s

/-- The function `kinit1` of `kalloc.c` (lines 37-48): the counters are
zeroed, then the range is handed to `freerange`. -/
def kinit1 (L : Layout) (s : KState) (vstart vend : Nat) : Option KState :=
  freerange L
    { s with pageframe_counters :=
        fun i => if i < NPAGEFRAMES L then 0 else s.pageframe_counters i }
    vstart vend

/-- The function `kinit2` of `kalloc.c` (lines 50-55). -/
def kinit2 (L : Layout) (s : KState) (vstart vend : Nat) : Option KState :=
  freerange L s vstart vend

/-- The nodes of the free list as a sequence: `l` lists the frames met when
following `next` from `head` up to the null pointer. -/
def FreeChain (m : Mem) : Nat → List Nat → Prop
  | head, [] => head = 0
  | head, x :: l => head ≠ 0 ∧ head = x ∧ FreeChain m (readPtr m x) l

instance FreeChain.decide (m : Mem) : (head : Nat) → (l : List Nat) →
    Decidable (FreeChain m head l)
  | head, [] => by unfold FreeChain; infer_instance
  | head, x :: l => by
    unfold FreeChain
    have := FreeChain.decide m (readPtr m x) l
    infer_instance

/-- The frame reached after `n` steps along `next` from `head`; once the null
pointer is met the walk stays there. -/
def nodeAt (m : Mem) : Nat → Nat → Nat
  | 0, head => head
  | n + 1, head => if head = 0 then 0 else nodeAt m n (readPtr m head)

/-- Frame `v` is reachable from the free-list head. -/
def OnFreeList (s : KState) (v : Nat) : Prop :=
  v ≠ 0 ∧ ∃ n, nodeAt s.mem n s.freelist = v

/-- One call into the allocator. -/
inductive AllocCall where
  | kalloc : AllocCall
  | kfree (v : Nat) : AllocCall

/-- A sequence of allocator calls run from state `s`; the value returned by
`kalloc` is dropped, a panic of `kfree` ends the run with `none`. -/
def runCalls (L : Layout) : KState → List AllocCall → Option KState
  | s, [] => some s
  | s, AllocCall.kalloc :: cs => runCalls L (kalloc L s).2 cs
  | s, AllocCall.kfree v :: cs =>
    match kfree L s v with
    | some s1 => runCalls L s1 cs
    | none => none

/-- The allocator state after the counter loop of `kinit1` and before its
`freerange`: all counters zero, empty free list, `frees = 0` (the memory
contents are arbitrary). -/
def bootState (m : Mem) : KState :=
  { freelist := 0, frees := 0, pageframe_counters := fun _ => 0, mem := m }

/-- States reachable from the boot state by any sequence of `kalloc` calls and
non-panicking `kfree` calls. -/
def Reachable (L : Layout) (s : KState) : Prop :=
  ∃ m cs, runCalls L (bootState m) cs = some s

/-- States reachable from the boot state by `kalloc` calls and by `kfree`
calls whose argument is a 32-bit pointer that passes the validity check of
`kfree` and is not on the free list when the call is made. -/
inductive ReachableNoRefree (L : Layout) : KState → Prop
  | boot (m : Mem) : ReachableNoRefree L (bootState m)
  | kalloc {s : KState} : ReachableNoRefree L s → ReachableNoRefree L (kalloc L s).2
  | kfree {s s1 : KState} (v : Nat) : ReachableNoRefree L s → v < WORD →
      ¬ OnFreeList s v → kfree L s v = some s1 → ReachableNoRefree L s1

/-- A frame pointer valid in the stock layout (`0x80400000`, frame 1024). -/
def frameA : Nat := 2151677952

/-- The allocator state after `kfree(frameA)` in the boot state with zeroed
memory, in the stock layout. -/
def oneFreed : KState :=
  { freelist := frameA
    frees := 1
    pageframe_counters := Function.update (fun _ => 0) (frameIndex xv6 frameA) 0
    mem := writePtr (memset (fun _ => 0) frameA 1 PGSIZE) frameA 0 }

/-- The consistency invariant of the allocator: the free list is a finite,
duplicate-free chain of valid 32-bit frame pointers whose counters are all 0,
and `frees` is its length. -/
def AllocInv (L : Layout) (s : KState) : Prop :=
  s.freelist < WORD ∧
  ∃ l : List Nat, FreeChain s.mem s.freelist l ∧ l.Nodup ∧
    (∀ u ∈ l, validFrame L u ∧ u < WORD ∧ s.pageframe_counters (frameIndex L u) = 0) ∧
    s.frees = l.length

/-- The runs of `ReachableNoRefree` together with their history: `F` lists the
pointers that have been passed to `kfree` so far. -/
inductive ReachableTracked (L : Layout) : KState → List Nat → Prop
  | boot (m : Mem) : ReachableTracked L (bootState m) []
  | kalloc {s : KState} {F : List Nat} : ReachableTracked L s F →
      ReachableTracked L (kalloc L s).2 F
  | kfree {s s1 : KState} {F : List Nat} (v : Nat) : ReachableTracked L s F → v < WORD →
      ¬ OnFreeList s v → kfree L s v = some s1 → ReachableTracked L s1 (v :: F)

/-- The allocator invariant with history `F`: the free list is a finite,
duplicate-free chain of frames that were freed and have counter 0; every freed
pointer is a valid 32-bit frame pointer and is on the list whenever its counter
is 0; and the counter of a frame that was never freed is 0. -/
def TrackedInv (L : Layout) (s : KState) (F : List Nat) : Prop :=
  s.freelist < WORD ∧
  ∃ l : List Nat, FreeChain s.mem s.freelist l ∧ l.Nodup ∧
    (∀ u ∈ l, u ∈ F ∧ s.pageframe_counters (frameIndex L u) = 0) ∧
    (∀ v ∈ F, validFrame L v ∧ v < WORD ∧
      (s.pageframe_counters (frameIndex L v) = 0 → v ∈ l)) ∧
    (∀ i, (∀ v ∈ F, frameIndex L v ≠ i) → s.pageframe_counters i = 0)

/-! ## Page tables, files and processes -/

/-- Conversion of an `int` to `uint` (two's complement, 32 bits). -/
def toU32 (x : Int) : Nat := (x % 4294967296).toNat

/-- Conversion of a `uint` to `int` (two's complement, 32 bits). -/
def toInt32 (a : Nat) : Int :=
  if a % WORD < 2147483648 then ((a % WORD : Nat) : Int) else ((a % WORD : Nat) : Int) - 4294967296

/-- Bitwise complement of a 32-bit value (the C operator `~` on a flag). -/
def not32 (a : Nat) : Nat := 4294967295 ^^^ a

/-- Modelled from the spec: `mmu.h` is not among the sources; the Present
flag of a page-table entry (bit 0 on x86). -/
def PTE_P : Nat := 1

/-- Modelled from the spec: `mmu.h` is not among the sources; the Writable
flag of a page-table entry (bit 1 on x86). -/
def PTE_W : Nat := 2

/-- Modelled from the spec: `mmu.h` is not among the sources; the User flag
of a page-table entry (bit 2 on x86). -/
def PTE_U : Nat := 4

/-- Modelled from the spec: `mmu.h` is not among the sources; `PTE_ADDR(pte)`
is the physical address field of the entry, `pte & ~0xFFF`. -/
def PTE_ADDR (pte : Nat) : Nat := pte &&& 4294963200

/-- Modelled from the spec: `mmu.h` is not among the sources; the spec
(section 9) reserves for copy-on-write "one bit from the PTE's
architecturally-available software bits", which on x86 are bits 9 to 11. -/
def Layout.CowBitOK (L : Layout) : Prop :=
  L.PTE_COW = 512 ∨ L.PTE_COW = 1024 ∨ L.PTE_COW = 2048

instance (L : Layout) : Decidable L.CowBitOK := by
  unfold Layout.CowBitOK; infer_instance

/-- The flag `MAP_PROT_READ` (`trap.c` line 11, `sysfile.c` line 22). -/
def MAP_PROT_READ : Nat := 1

/-- The flag `MAP_PROT_WRITE` (`trap.c` line 12, `sysfile.c` line 23). -/
def MAP_PROT_WRITE : Nat := 2

/-- The constant `MAX_MMAPS_PROC` of `proc.h`. -/
def MAX_MMAPS_PROC : Nat := 4

/-- The constant `MAX_MMAPS_SYS` of `proc.h`. -/
def MAX_MMAPS_SYS : Int := 16

/-- A page table: for each virtual page number either no entry slot (the walk
returns null) or the value of the page-table entry. -/
abbrev PgDir := Nat → Option Nat

/-- Modelled from the spec: `vm.c` is not among the sources; `walkpgdir2(pgdir,
va, 0)` is the spec's `walk` without `create`: the entry slot covering `va`, or
null. The slot is identified with its page number, the result is its value. -/
def walkpgdir2 (pg : PgDir) (va : Nat) : Option Nat := pg (va / PGSIZE)

/-- The assignment `*pte = e` for the entry slot covering `va`. -/
def setPte (pg : PgDir) (va e : Nat) : PgDir := Function.update pg (va / PGSIZE) (some e)

/-- Modelled from the spec: `file.h` is not among the sources; the fields of
`struct file` the spec names in section 6. -/
structure file where
  readable : Int
  writable : Int
  off : Nat
  ip : Nat
  ref : Int

/-- Modelled from the spec: `fs.h`/`file.h` are not among the sources; an
in-core inode reduced to its size and its bytes. -/
structure inode where
  size : Nat
  data : Nat → Nat

/-- The file system as the mmap code sees it: `struct file` objects and inodes,
both by address. -/
structure FS where
  ftable : Nat → file
  inodes : Nat → inode

/-- The record `struct mmap_area` of `proc.h` (lines 37-45). -/
structure mmap_area where
  addr : Nat
  file : Nat
  offset : Nat
  length : Nat
  flags : Int
  used : Int
  dirty : Int

/-- The fields of `struct proc` (`proc.h` lines 51-69) that the resolver and
the mmap manager use; `mmaps` is indexed by `0 .. MAX_MMAPS_PROC - 1`. -/
structure proc where
  pgdir : PgDir
  killed : Int
  mmaps : Nat → mmap_area
  mmap_sp : Nat

/-- The kernel state: allocator and memory, the current process `myproc()`,
the file system, and the global `num_system_mmap_areas` of `sysfile.c`. -/
structure Kernel where
  kmem : KState
  p : proc
  fs : FS
  num_system_mmap_areas : Int

/-- Modelled from the spec: `vm.c`, `file.c` and `fs.c` are not among the
sources. The functions of those files that `mmap` and `munmap` call are
parameters: each maps the state it may touch to its return value and the state
afterwards. `allocuvm`/`deallocuvm` act on the allocator, memory and the page
table (spec 4.2 `alloc_range`, `dealloc_range`); `fileread` reads through the
page table into memory and advances the file offset; `writei` writes memory to
an inode (spec section 6). -/
structure Helpers where
  allocuvm : KState → PgDir → Nat → Nat → Nat × KState × PgDir
  deallocuvm : KState → PgDir → Nat → Nat → Nat × KState × PgDir
  fileread : FS → KState → PgDir → Nat → Nat → Int → Int × FS × KState
  writei : FS → Mem → Nat → Nat → Nat → Nat → Int × FS

/-- Modelled from the spec: `file.c` is not among the sources; `filedup(f)`
takes one more reference on the file (spec section 6, "a refcount via
`filedup`/`fileclose`") and returns `f`. -/
def filedup (fs : FS) (f : Nat) : Nat × FS :=
  (f, { fs with ftable :=
          (Function.update fs.ftable f { fs.ftable f with ref := (fs.ftable f).ref + 1 }) })

/-! ## The page-fault resolver (`trap.c`, case `T_PGFLT`) -/

/-- The search loop of `trap.c` lines 129-138, `n` iterations left from index
`i`: the first index whose `addr` equals `va`, else `MAX_MMAPS_PROC`. -/
def faultLookup (mm : Nat → mmap_area) (va : Nat) : Nat → Nat → Nat
  | 0, i => i
  | n + 1, i => if va = (mm i).addr then i else faultLookup mm va n (i + 1)

/-- The label `bad` of `trap.c` (lines 156-164): the process is marked
killed (the diagnostic output is not modelled). -/
def pgfaultBad (k : Kernel) : Kernel :=
  { k with p := { k.p with killed := 1 } }

/-- The mmap branch of the resolver (`trap.c` lines 126-164). -/
def pgfaultMmap (k : Kernel) (va : Nat) : Option Kernel :=
  let i := faultLookup k.p.mmaps va MAX_MMAPS_PROC 0
  if i = MAX_MMAPS_PROC then some (pgfaultBad k)
  else if toU32 (k.p.mmaps i).flags &&& MAP_PROT_WRITE ≠ 0 then
    match walkpgdir2 k.p.pgdir va with
    | none => none
    | some e =>
      some { k with p :=
        { k.p with
          pgdir := setPte k.p.pgdir va (e ||| PTE_W)
          mmaps := Function.update k.p.mmaps i { k.p.mmaps i with dirty := 1 } } }
  else some (pgfaultBad k)

/-- The copy-on-write branch of the resolver (`trap.c` lines 98-123) for the
entry value `e` found at `va`. -/
def pgfaultCow (L : Layout) (k : Kernel) (va e : Nat) : Option Kernel :=
  let pa := PTE_ADDR e
  let i := pa / PGSIZE
  if k.kmem.pageframe_counters i > 1 then
    let r := kalloc L k.kmem
    let newpa := r.1
    if newpa = 0 then none
    else
      let m1 := memmove r.2.mem newpa (P2V L pa) PGSIZE
      let rc := Function.update r.2.pageframe_counters i (r.2.pageframe_counters i - 1)
      some { k with
        kmem := { r.2 with mem := m1, pageframe_counters := rc }
        p := { k.p with
          pgdir := setPte k.p.pgdir va
            ((V2P L newpa ||| PTE_P ||| PTE_W ||| PTE_U) &&& not32 L.PTE_COW) } }
  else
    some { k with p := { k.p with
      pgdir := setPte k.p.pgdir va ((e ||| PTE_W) &&& not32 L.PTE_COW) } }

/-- The page-fault case of `trap` (`trap.c` lines 88-165) for fault address
`cr2`; `none` is a kernel panic or a null-pointer dereference. -/
def pgfault (L : Layout) (k : Kernel) (cr2 : Nat) : Option Kernel :=
  let va := PGROUNDDOWN cr2
  match walkpgdir2 k.p.pgdir va with
  | some e =>
    if e &&& PTE_P ≠ 0 ∧ e &&& PTE_W = 0 ∧ e &&& L.PTE_COW ≠ 0 then pgfaultCow L k va e
    else pgfaultMmap k va
  | none => pgfaultMmap k va

/-! ## The mmap manager (`sysfile.c`) -/

/-- The slot search of `mmap` (`sysfile.c` lines 494-501), `n` iterations left
from index `i`: the first unused slot, else `MAX_MMAPS_PROC`. -/
def mmapFreeSlot (mm : Nat → mmap_area) : Nat → Nat → Nat
  | 0, i => i
  | n + 1, i => if (mm i).used = 0 then i else mmapFreeSlot mm n (i + 1)

/-- The loop of `mmap` step 5 (`sysfile.c` lines 519-523), `n` iterations left
from `va`: the writable bit of each existing entry is cleared. -/
def mmapProtect : PgDir → Nat → Nat → PgDir
  | pg, 0, _ => pg
  | pg, n + 1, va =>
    mmapProtect
      (match walkpgdir2 pg va with
        | some e => setPte pg va (e &&& not32 PTE_W)
        | none => pg)
      n (va + PGSIZE)

/-- The address `mmap` chooses (`sysfile.c` lines 506-507):
`PGROUNDDOWN(p->mmap_sp - len)` in `uint` arithmetic. -/
def mmapAddr (k : Kernel) (len : Int) : Nat :=
  PGROUNDDOWN (sub32 k.p.mmap_sp (toU32 len))

/-- The call `allocuvm(p->pgdir, addr, addr + len)` of `mmap` (line 508). -/
def mmapAlloc (X : Helpers) (k : Kernel) (len : Int) : Nat × KState × PgDir :=
  X.allocuvm k.kmem k.p.pgdir (mmapAddr k len) (add32 (mmapAddr k len) (toU32 len))

/-- The statement `f->off += off` of `mmap` (line 513). -/
def mmapSeek (k : Kernel) (f : Nat) (off : Int) : FS :=
  { k.fs with ftable :=
      (Function.update k.fs.ftable f
        { k.fs.ftable f with off := add32 (k.fs.ftable f).off (toU32 off) }) }

/-- The call `fileread(f, (char *)addr, len)` of `mmap` (line 514). -/
def mmapRead (X : Helpers) (k : Kernel) (f : Nat) (off len : Int) : Int × FS × KState :=
  X.fileread (mmapSeek k f off) (mmapAlloc X k len).2.1 (mmapAlloc X k len).2.2 f
    (mmapAddr k len) len

/-- The function `mmap` of `sysfile.c` (lines 477-539): the return value and
the state afterwards. `f = 0` is the null file pointer. -/
def mmap (X : Helpers) (k : Kernel) (f : Nat) (off len flags : Int) : Int × Kernel :=
  if f = 0 ∨ (k.fs.ftable f).readable = 0 then (-1, k)
  else if Int.tmod off PGSIZE ≠ 0 then (-1, k)
  else if len ≤ 0 then (-1, k)
  else if toU32 flags &&& (MAP_PROT_READ ||| MAP_PROT_WRITE) = 0 then (-1, k)
  else if k.num_system_mmap_areas = MAX_MMAPS_SYS then (-1, k)
  else
    let i := mmapFreeSlot k.p.mmaps MAX_MMAPS_PROC 0
    if i = MAX_MMAPS_PROC then (-1, k)
    else
      let addr := mmapAddr k len
      let a := mmapAlloc X k len
      if a.1 = 0 then (-1, { k with kmem := a.2.1, p := { k.p with pgdir := a.2.2 } })
      else
        let r := mmapRead X k f off len
        if r.1 = 0 then
          (-1, { k with kmem := r.2.2, fs := r.2.1, p := { k.p with pgdir := a.2.2 } })
        else
          let pg := mmapProtect a.2.2
            ((PGROUNDUP (add32 addr (toU32 len)) - PGROUNDDOWN addr) / PGSIZE)
            (PGROUNDDOWN addr)
          let d := filedup r.2.1 f
          (toInt32 addr,
            { kmem := r.2.2
              fs := d.2
              num_system_mmap_areas := k.num_system_mmap_areas + 1
              p := { k.p with
                pgdir := pg
                mmap_sp := addr
                mmaps := Function.update k.p.mmaps i
                  { addr := addr, file := d.1, offset := toU32 off, length := toU32 len,
                    flags := flags, used := 1, dirty := 0 } } })

/-- Outcome of the search loop of `munmap`. -/
inductive Lookup where
  | found (i : Nat) : Lookup
  | mismatch : Lookup
  | absent : Lookup
deriving DecidableEq

/-- The search loop of `munmap` (`sysfile.c` lines 566-575), `n` iterations
left from index `i`: at the first used slot whose `addr` matches, the lengths
are compared. -/
def munmapLookup (mm : Nat → mmap_area) (addr : Nat) (length : Int) : Nat → Nat → Lookup
  | 0, _ => Lookup.absent
  | n + 1, i =>
    if (mm i).used ≠ 0 ∧ (mm i).addr = addr then
      if (mm i).length = toU32 length then Lookup.found i else Lookup.mismatch
    else munmapLookup mm addr length n (i + 1)

/-- The loop of `munmap` step 3 (`sysfile.c` lines 580-588), `n` iterations
left from index `j` with running minimum `min`; as in the source, the slot
read inside the loop is `mmaps[i]`. -/
def munmapMin (mm : Nat → mmap_area) (i : Nat) : Nat → Nat → Nat → Nat
  | 0, _, min => min
  | n + 1, j, min =>
    munmapMin mm i n (j + 1)
      (if i ≠ j then (if min > (mm i).addr then (mm i).addr else min) else min)

/-- The write-back loop of `munmap` (`sysfile.c` lines 594-607), `n`
iterations left from `stride`: each page of the region that has an entry slot
is written to the file with `writei`. -/
def munmapWriteBack (L : Layout) (X : Helpers) (pg : PgDir) (m : Mem) (ma : mmap_area) :
    Nat → Nat → FS → FS
  | 0, _, fs => fs
  | n + 1, stride, fs =>
    munmapWriteBack L X pg m ma n (stride + PGSIZE)
      (match walkpgdir2 pg (add32 ma.addr stride) with
        | none => fs
        | some e =>
          (X.writei fs m (fs.ftable ma.file).ip (P2V L (PTE_ADDR e))
            (add32 ma.offset stride) PGSIZE).2)

/-- The function `munmap` of `sysfile.c` (lines 551-619): the return value and
the state afterwards. -/
def munmap (L : Layout) (X : Helpers) (k : Kernel) (addr : Nat) (length : Int) :
    Int × Kernel :=
  if addr % PGSIZE ≠ 0 ∨ length ≤ 0 then (-1, k)
  else
    match munmapLookup k.p.mmaps addr length MAX_MMAPS_PROC 0 with
    | Lookup.mismatch => (-1, k)
    | Lookup.absent => (0, k)
    | Lookup.found i =>
      let ma := k.p.mmaps i
      let min := munmapMin k.p.mmaps i MAX_MMAPS_PROC 0 (sub32 L.KERNBASE PGSIZE)
      let fs1 :=
        if ma.dirty ≠ 0 then
          munmapWriteBack L X k.p.pgdir k.kmem.mem ma ((ma.length + PGSIZE - 1) / PGSIZE) 0 k.fs
        else k.fs
      let d := X.deallocuvm k.kmem k.p.pgdir (add32 addr (toU32 length)) addr
      (0,
        { kmem := d.2.1
          fs := fs1
          num_system_mmap_areas := k.num_system_mmap_areas - 1
          p := { k.p with
            pgdir := d.2.2
            mmap_sp := min
            mmaps := Function.update k.p.mmaps i { ma with used := 0 } } })

/-- An empty region record. -/
def noArea : mmap_area :=
  { addr := 0, file := 0, offset := 0, length := 0, flags := 0, used := 0, dirty := 0 }

/-- A file system with one readable, open file object at address 1 on inode 1. -/
def demoFS : FS :=
  { ftable := fun f =>
      if f = 1 then { readable := 1, writable := 0, off := 0, ip := 1, ref := 1 }
      else { readable := 0, writable := 0, off := 0, ip := 0, ref := 0 }
    inodes := fun _ => { size := 0, data := fun _ => 0 } }

/-- A kernel state in the stock layout in which the page at `0x10000` of the
current process is a copy-on-write share of physical frame 2048 (counter 2)
and frame `0x80400000` is on the free list. -/
def cowKernel : Kernel :=
  { kmem :=
      { freelist := frameA
        frees := 1
        pageframe_counters := fun i => if i = 2048 then 2 else 0
        mem := fun a => if a = 2155872256 then 170 else 0 }
    p :=
      { pgdir := fun vpn => if vpn = 16 then some 8389125 else none
        killed := 0
        mmaps := fun _ => noArea
        mmap_sp := 2147483648 }
    fs := demoFS
    num_system_mmap_areas := 0 }

/-- A process state as `munmap` leaves it after a writable one-page region at
`0x7FFFF000` was mapped and unmapped: slot 0 is no longer used but keeps its
`addr` and `flags`, and the entry of the page is cleared (value 0). -/
def staleKernel : Kernel :=
  { kmem := { freelist := 0, frees := 0, pageframe_counters := fun _ => 0, mem := fun _ => 0 }
    p :=
      { pgdir := fun vpn => if vpn = 524287 then some 0 else none
        killed := 0
        mmaps := fun i =>
          if i = 0 then
            { addr := 2147479552, file := 1, offset := 0, length := 4096, flags := 2,
              used := 0, dirty := 0 }
          else noArea
        mmap_sp := 2147479552 }
    fs := demoFS
    num_system_mmap_areas := 0 }

/-- Stand-ins for the helper functions, used for concrete evaluations only:
`allocuvm` maps every page of the range with an entry `P | W | U`, `deallocuvm`
clears the entries of the range, `fileread` and `writei` report `n` bytes and
move no data. -/
def demoHelpers : Helpers :=
  { allocuvm := fun km pg oldsz newsz =>
      (newsz, km, fun vpn =>
        if oldsz / PGSIZE ≤ vpn ∧ vpn < (newsz + PGSIZE - 1) / PGSIZE then some 7 else pg vpn)
    deallocuvm := fun km pg oldsz newsz =>
      (newsz, km, fun vpn =>
        if newsz / PGSIZE ≤ vpn ∧ vpn < (oldsz + PGSIZE - 1) / PGSIZE then
          (pg vpn).map (fun _ => 0)
        else pg vpn)
    fileread := fun fs km _ _ _ n => (n, fs, km)
    writei := fun fs _ _ _ _ n => (n, fs) }

/-- A fresh process in the stock layout: no region in use, `mmap_sp` at
`KERNBASE`, no page mapped; one readable file is open. -/
def freshKernel : Kernel :=
  { kmem := { freelist := 0, frees := 0, pageframe_counters := fun _ => 0, mem := fun _ => 0 }
    p :=
      { pgdir := fun _ => none
        killed := 0
        mmaps := fun _ => noArea
        mmap_sp := 2147483648 }
    fs := demoFS
    num_system_mmap_areas := 0 }

/-- Slot `i` is a used region whose `addr` is `addr`: the test of the search
loop of `munmap` (`sysfile.c` line 568). -/
def UsedAt (mm : Nat → mmap_area) (addr i : Nat) : Prop :=
  (mm i).used ≠ 0 ∧ (mm i).addr = addr

instance (mm : Nat → mmap_area) (addr i : Nat) : Decidable (UsedAt mm addr i) := by
  unfold UsedAt; infer_instance

/-- Slot `i` is the lowest-numbered used region whose `addr` is `addr`. -/
def FirstUsedAt (mm : Nat → mmap_area) (addr i : Nat) : Prop :=
  i < MAX_MMAPS_PROC ∧ UsedAt mm addr i ∧ ∀ j, j < i → ¬ UsedAt mm addr j

/-- One system call into the mmap manager. -/
inductive MmapCall where
  | mmap (f : Nat) (off len flags : Int) : MmapCall
  | munmap (addr : Nat) (length : Int) : MmapCall

/-- A sequence of `mmap`/`munmap` calls run from state `k`; return values are
dropped, so failed calls are part of the run. -/
def runMmapCalls (L : Layout) (X : Helpers) : Kernel → List MmapCall → Kernel
  | k, [] => k
  | k, MmapCall.mmap f off len flags :: cs =>
    runMmapCalls L X (mmap X k f off len flags).2 cs
  | k, MmapCall.munmap addr length :: cs =>
    runMmapCalls L X (munmap L X k addr length).2 cs

/-- The fresh process after `mmap(f, 0, 4096, MAP_PROT_WRITE)`: one region at
`0x7FFFF000` in slot 0. -/
def oneMapped : Kernel := (mmap demoHelpers freshKernel 1 0 4096 2).2

/-- The fresh process after two calls `mmap(f, 0, 4096, MAP_PROT_WRITE)`:
regions at `0x7FFFF000` (slot 0) and `0x7FFFE000` (slot 1). -/
def twoMapped : Kernel := (mmap demoHelpers oneMapped 1 0 4096 2).2

/-- The state after `mmap(f, 0, 4096, MAP_PROT_WRITE)` in a fresh process,
for arbitrary helper functions. -/
def overlapStep1 (X : Helpers) : Kernel := (mmap X freshKernel 1 0 4096 2).2

/-- The state after a second `mmap(f, 0, 4096, MAP_PROT_WRITE)`. -/
def overlapStep2 (X : Helpers) : Kernel := (mmap X (overlapStep1 X) 1 0 4096 2).2

/-- The state after `munmap(0x7FFFF000, 4096)`, which unmaps the first
region. -/
def overlapStep3 (X : Helpers) : Kernel :=
  (munmap xv6 X (overlapStep2 X) 2147479552 4096).2

/-- The state after a third `mmap(f, 0, 4096, MAP_PROT_WRITE)`. -/
def overlapStep4 (X : Helpers) : Kernel := (mmap X (overlapStep3 X) 1 0 4096 2).2

/-- The state after `mmap(f, 0, 100, MAP_PROT_WRITE)` run after
`overlapStep1`: a second region, of 100 bytes. -/
def shortStep2 (X : Helpers) : Kernel := (mmap X (overlapStep1 X) 1 0 100 2).2

/-- The state after `munmap(0x7FFFF000, 4096)`, which unmaps the first
region. -/
def shortStep3 (X : Helpers) : Kernel :=
  (munmap xv6 X (shortStep2 X) 2147479552 4096).2

/-- The state after a further `mmap(f, 0, 4096, MAP_PROT_WRITE)`. -/
def shortStep4 (X : Helpers) : Kernel := (mmap X (shortStep3 X) 1 0 4096 2).2

/-- Modelled from the spec: `fs.c` is not among the sources; `writei(ip, src,
off, n)` (spec section 6, used by the write-back of section 4.4) stores the
`n` bytes found at kernel address `src` to positions `off .. off + n - 1` of
the inode, grows the file when the write ends beyond its size, and returns
`n`. -/
def specWritei (fs : FS) (m : Mem) (ip src off n : Nat) : Int × FS :=
  ((n : Int),
    { fs with inodes :=
        (Function.update fs.inodes ip
          { size := max (fs.inodes ip).size (off + n)
            data := fun pos =>
              if off ≤ pos ∧ pos < off + n then m (src + (pos - off))
              else (fs.inodes ip).data pos }) })

/-- Copy of `n` bytes `src base, src (base+1), ...` to the user address `va`
(page-aligned) through the page table, one page per step, `p` pages left;
pages without an entry are skipped. -/
def copyOutPages (L : Layout) (pg : PgDir) (src : Nat → Nat) :
    Nat → Nat → Nat → Nat → Mem → Mem
  | 0, _, _, _, m => m
  | p + 1, va, n, base, m =>
    copyOutPages L pg src p (va + PGSIZE) (n - min n PGSIZE) (base + min n PGSIZE)
      (match walkpgdir2 pg va with
        | some e => fun a =>
            if P2V L (PTE_ADDR e) ≤ a ∧ a < P2V L (PTE_ADDR e) + min n PGSIZE then
              src (base + (a - P2V L (PTE_ADDR e)))
            else m a
        | none => m)

/-- Modelled from the spec: `file.c` is not among the sources; `fileread(f,
addr, n)` is "the filesystem's standard sequential read" (spec 4.4, section
6): it copies up to `n` bytes of the file, starting at the file object's own
offset and stopping at the end of the file, to the user address `addr`,
advances the offset by the number of bytes read and returns that number; -1 if
the file is not readable. -/
def specFileread (L : Layout) (fs : FS) (km : KState) (pg : PgDir) (f addr : Nat) (n : Int) :
    Int × FS × KState :=
  if (fs.ftable f).readable = 0 then (-1, fs, km)
  else
    let cnt := min n.toNat ((fs.inodes (fs.ftable f).ip).size - (fs.ftable f).off)
    ((cnt : Int),
      { fs with ftable :=
          (Function.update fs.ftable f
            { fs.ftable f with off := add32 (fs.ftable f).off cnt }) },
      { km with mem :=
          (copyOutPages L pg
            (fun j => (fs.inodes (fs.ftable f).ip).data ((fs.ftable f).off + j))
            ((cnt + PGSIZE - 1) / PGSIZE) addr cnt 0 km.mem) })

/-- The page loop of the spec's `map_range` (section 4.2), `n` pages left from
`a`: a frame is taken from the allocator, zero-filled and entered with
`P | W | U`; `none` when the allocator is empty. -/
def specAllocLoop (L : Layout) : Nat → Nat → KState → PgDir → Option (KState × PgDir)
  | 0, _, km, pg => some (km, pg)
  | n + 1, a, km, pg =>
    if (kalloc L km).1 = 0 then none
    else
      specAllocLoop L n (a + PGSIZE)
        { (kalloc L km).2 with mem := memset (kalloc L km).2.mem (kalloc L km).1 0 PGSIZE }
        (setPte pg a (V2P L (kalloc L km).1 ||| PTE_P ||| PTE_W ||| PTE_U))

/-- Modelled from the spec: `vm.c` is not among the sources; `allocuvm(pgdir,
oldsz, newsz)` is the spec's `alloc_range` (section 4.2): it maps fresh
zero-filled frames over the pages from `oldsz` up to `newsz` and returns
`newsz`, or returns 0 with the partial progress rolled back. -/
def specAllocuvm (L : Layout) (km : KState) (pg : PgDir) (oldsz newsz : Nat) :
    Nat × KState × PgDir :=
  match specAllocLoop L ((newsz - PGROUNDUP oldsz + PGSIZE - 1) / PGSIZE) (PGROUNDUP oldsz)
      km pg with
  | some r => (newsz, r.1, r.2)
  | none => (0, km, pg)

/-- The page loop of the spec's `dealloc_range` (section 4.2), `n` pages left
from `a`: a present entry is cleared and its frame handed to `kfree`; a null
or non-present entry is skipped. -/
def specDeallocLoop (L : Layout) : Nat → Nat → KState → PgDir → KState × PgDir
  | 0, _, km, pg => (km, pg)
  | n + 1, a, km, pg =>
    match walkpgdir2 pg a with
    | some e =>
      if e &&& PTE_P ≠ 0 then
        specDeallocLoop L n (a + PGSIZE) ((kfree L km (P2V L (PTE_ADDR e))).getD km)
          (setPte pg a 0)
      else specDeallocLoop L n (a + PGSIZE) km pg
    | none => specDeallocLoop L n (a + PGSIZE) km pg

/-- Modelled from the spec: `vm.c` is not among the sources; `deallocuvm(pgdir,
oldsz, newsz)` is the spec's `dealloc_range` (section 4.2) over the pages from
`newsz` up to `oldsz`; it returns `newsz`. -/
def specDeallocuvm (L : Layout) (km : KState) (pg : PgDir) (oldsz newsz : Nat) :
    Nat × KState × PgDir :=
  (newsz,
    specDeallocLoop L ((oldsz - PGROUNDUP newsz + PGSIZE - 1) / PGSIZE) (PGROUNDUP newsz)
      km pg)

/-- The helper functions as the spec describes them. -/
def specHelpers (L : Layout) : Helpers :=
  { allocuvm := specAllocuvm L
    deallocuvm := specDeallocuvm L
    fileread := specFileread L
    writei := specWritei }

/-- Modelled from the spec: address translation by the processor is not part
of the sources; a user-mode store of byte `b` to `va` succeeds when the entry
covering `va` is present, writable and user-accessible (spec section 3) and
then changes that byte of the mapped frame; otherwise it faults (`none`). -/
def userStore (L : Layout) (k : Kernel) (va b : Nat) : Option Kernel :=
  match walkpgdir2 k.p.pgdir va with
  | some e =>
    if e &&& PTE_P ≠ 0 ∧ e &&& PTE_W ≠ 0 ∧ e &&& PTE_U ≠ 0 then
      some { k with kmem := { k.kmem with mem :=
        (Function.update k.kmem.mem (P2V L (PTE_ADDR e) + va % PGSIZE) b) } }
    else none
  | none => none

/-- Modelled from the spec: address translation by the processor is not part
of the sources; a user-mode load from `va` yields the byte of the mapped frame
when the entry covering `va` is present and user-accessible. -/
def userLoad (L : Layout) (k : Kernel) (va : Nat) : Option Nat :=
  match walkpgdir2 k.p.pgdir va with
  | some e =>
    if e &&& PTE_P ≠ 0 ∧ e &&& PTE_U ≠ 0 then
      some (k.kmem.mem (P2V L (PTE_ADDR e) + va % PGSIZE))
    else none
  | none => none

/-- A fresh process in the stock layout with frame `0x80400000` on the free
list and one open readable file (object 1, offset 0) on inode 1, whose 8192
bytes are 65 in the first page and 90 in the second. -/
def tripKernel : Kernel :=
  { kmem := oneFreed
    p :=
      { pgdir := fun _ => none
        killed := 0
        mmaps := fun _ => noArea
        mmap_sp := 2147483648 }
    fs :=
      { ftable := fun f =>
          if f = 1 then { readable := 1, writable := 1, off := 0, ip := 1, ref := 1 }
          else { readable := 0, writable := 0, off := 0, ip := 0, ref := 0 }
        inodes := fun ip =>
          if ip = 1 then { size := 8192, data := fun pos => if pos < 4096 then 65 else 90 }
          else { size := 0, data := fun _ => 0 } }
    num_system_mmap_areas := 0 }

/-- Step 1 of the round trip: `mmap(f, 0, 4096, MAP_PROT_WRITE)`. -/
def tripMapped : Int × Kernel := mmap (specHelpers xv6) tripKernel 1 0 4096 2

/-- Steps 2 and 3 of the round trip: the first store to `0x7FFFF000` faults,
the resolver runs, and the store of byte 66 is then carried out. -/
def tripWritten : Option Kernel :=
  (pgfault xv6 tripMapped.2 2147479552).bind (fun k => userStore xv6 k 2147479552 66)

/-- Step 4 of the round trip: `munmap(0x7FFFF000, 4096)`. -/
def tripUnmapped : Option (Int × Kernel) :=
  tripWritten.map (fun k => munmap xv6 (specHelpers xv6) k 2147479552 4096)

/-- Step 5 of the round trip: `mmap(f, 0, 4096, MAP_PROT_WRITE)` again, on the
same open file. -/
def tripRemapped : Option (Int × Kernel) :=
  tripUnmapped.map (fun r => mmap (specHelpers xv6) r.2 1 0 4096 2)

/-- Step 5 once more, with the file object's offset put back to 0 first (as
for a newly opened file object). -/
def tripReopened : Option (Int × Kernel) :=
  tripUnmapped.map (fun r =>
    mmap (specHelpers xv6)
      { r.2 with fs := { r.2.fs with ftable :=
          (Function.update r.2.fs.ftable 1 { r.2.fs.ftable 1 with off := 0 }) } }
      1 0 4096 2)

/-- A fresh process like `tripKernel`, but the file on inode 1 has 200
bytes, all 65. -/
def shortKernel : Kernel :=
  { tripKernel with
    fs :=
      { ftable := tripKernel.fs.ftable
        inodes := fun ip =>
          if ip = 1 then { size := 200, data := fun _ => 65 }
          else { size := 0, data := fun _ => 0 } } }

/-- The short region: `mmap(f, 0, 100, MAP_PROT_WRITE)` in `shortKernel`. -/
def shortMapped : Int × Kernel := mmap (specHelpers xv6) shortKernel 1 0 100 2

/-- The short region after the first-write fault and the store of byte 66 at
its start. -/
def shortWritten : Option Kernel :=
  (pgfault xv6 shortMapped.2 2147479552).bind (fun k => userStore xv6 k 2147479552 66)

/-- The call `munmap(0x7FFFF000, 100)` on the written short region. -/
def shortUnmapped : Option (Int × Kernel) :=
  shortWritten.map (fun k => munmap xv6 (specHelpers xv6) k 2147479552 100)

/-- Modelled from the spec: `fs.c` is not among the sources; the part of the
contract of `writei(ip, src, off, n)` that bounds its effect: the file objects
are untouched, only bytes `off .. off + n - 1` of inode `ip` can change, and
only that inode can grow, to at most `off + n`. -/
def WriteiContract (X : Helpers) : Prop :=
  ∀ (fs : FS) (m : Mem) (ip src off n : Nat),
    (X.writei fs m ip src off n).2.ftable = fs.ftable ∧
    (∀ q pos, (q ≠ ip ∨ pos < off ∨ off + n ≤ pos) →
      ((X.writei fs m ip src off n).2.inodes q).data pos = (fs.inodes q).data pos) ∧
    (∀ q, ((X.writei fs m ip src off n).2.inodes q).size ≤
      max (fs.inodes q).size (if q = ip then off + n else 0))

/-- A fresh process: all region slots unused and `mmap_sp` at `KERNBASE`. -/
def FreshProc (L : Layout) (k : Kernel) : Prop :=
  (∀ i, (k.p.mmaps i).used = 0) ∧ k.p.mmap_sp = L.KERNBASE

/-- States reachable from a fresh process by any sequence of `mmap` and
`munmap` calls, successful or failed; the length arguments are C `int`
values. -/
inductive MmapReachable (L : Layout) (X : Helpers) : Kernel → Prop
  | fresh {k : Kernel} : FreshProc L k → MmapReachable L X k
  | mmap {k : Kernel} (f : Nat) (off len flags : Int) : MmapReachable L X k →
      len < 2147483648 → MmapReachable L X (mmap X k f off len flags).2
  | munmap {k : Kernel} (addr : Nat) (length : Int) : MmapReachable L X k →
      MmapReachable L X (munmap L X k addr length).2

/-! ## Theorems: the allocator -/

theorem readPtr_writePtr (m : Mem) (a v : Nat) :
    readPtr (writePtr m a v) a = v % WORD := by
  simp only [readPtr, writePtr, WORD]
  simp
  omega

theorem kalloc_empty (L : Layout) (s : KState) (h : s.freelist = 0) :
    kalloc L s = (0, s) := by
  simp [kalloc, h]

theorem kalloc_nonempty (L : Layout) (s : KState) (h : s.freelist ≠ 0) :
    kalloc L s =
      (s.freelist,
        { freelist := readPtr s.mem s.freelist
          frees := s.frees - 1
          pageframe_counters :=
            Function.update s.pageframe_counters (frameIndex L s.freelist) 1
          mem := s.mem }) := by
  simp [kalloc, h]

/-- The state `kfree` leaves when it links frame `v` onto the free list. -/
theorem kfree_push_shape (L : Layout) (s : KState) (v : Nat) (hv : validFrame L v)
    (h : s.pageframe_counters (frameIndex L v) = 0 ∨
      s.pageframe_counters (frameIndex L v) = 1) :
    kfree L s v = some
      { freelist := v
        frees := s.frees + 1
        pageframe_counters := Function.update s.pageframe_counters (frameIndex L v) 0
        mem := writePtr (memset s.mem v 1 PGSIZE) v s.freelist } := by
  unfold validFrame at hv
  rcases h with h | h
  · have hu : Function.update s.pageframe_counters (frameIndex L v) 0 =
        s.pageframe_counters := by
      rw [← h]; exact Function.update_eq_self _ _
    simp only [kfree, if_neg hv, h, hu]
    simp [h]
  · simp only [kfree, if_neg hv, h]
    simp

/-- The state `kfree` leaves when other holders of frame `v` remain. -/
theorem kfree_keep_shape (L : Layout) (s : KState) (v : Nat) (hv : validFrame L v)
    (h0 : s.pageframe_counters (frameIndex L v) ≠ 0)
    (h1 : s.pageframe_counters (frameIndex L v) ≠ 1) :
    kfree L s v = some
      { s with pageframe_counters :=
          (Function.update s.pageframe_counters (frameIndex L v)
            (s.pageframe_counters (frameIndex L v) - 1)) } := by
  unfold validFrame at hv
  have h2 : s.pageframe_counters (frameIndex L v) - 1 ≠ 0 := by omega
  simp only [kfree, if_neg hv]
  simp [h0, h2]

/-- C2: for a valid frame pointer whose counter is positive, `kfree` succeeds,
lowers that counter by exactly one and changes no other counter; if the counter
was 1 the frame becomes the free-list head with the old head as its `next` and
`frees` rises by one; otherwise the free list, memory and `frees` are
unchanged; so `frees` rises exactly when the counter reaches 0. -/
theorem C2_kfree_positive_counter (L : Layout) (s : KState) (v : Nat)
    (hv : validFrame L v) (hpos : 0 < s.pageframe_counters (frameIndex L v)) :
    ∃ s1, kfree L s v = some s1 ∧
      s1.pageframe_counters (frameIndex L v) =
        s.pageframe_counters (frameIndex L v) - 1 ∧
      (∀ j, j ≠ frameIndex L v → s1.pageframe_counters j = s.pageframe_counters j) ∧
      (s.pageframe_counters (frameIndex L v) = 1 →
        s1.freelist = v ∧ readPtr s1.mem v = s.freelist % WORD ∧
        s1.frees = s.frees + 1) ∧
      (s.pageframe_counters (frameIndex L v) ≠ 1 →
        s1.freelist = s.freelist ∧ s1.mem = s.mem ∧ s1.frees = s.frees) ∧
      (s1.frees = s.frees + 1 ↔ s1.pageframe_counters (frameIndex L v) = 0) := by
  by_cases h1 : s.pageframe_counters (frameIndex L v) = 1
  · refine ⟨_, kfree_push_shape L s v hv (Or.inr h1), ?_, ?_, ?_, ?_, ?_⟩
    · simp [h1]
    · intro j hj; simp [Function.update, hj]
    · intro _; exact ⟨rfl, readPtr_writePtr _ _ _, rfl⟩
    · intro h; exact absurd h1 h
    · simp
  · have h0 : s.pageframe_counters (frameIndex L v) ≠ 0 := by omega
    refine ⟨_, kfree_keep_shape L s v hv h0 h1, ?_, ?_, ?_, ?_, ?_⟩
    · simp
    · intro j hj; simp [Function.update, hj]
    · intro h; exact absurd h h1
    · intro _; exact ⟨rfl, rfl, rfl⟩
    · simp only [Function.update_same]
      constructor
      · intro h; omega
      · intro h; omega

/-- Witness for C2 in the stock layout: frame `0x80400000` with counter 1. -/
theorem C2_kfree_positive_counter_witness :
    validFrame xv6 2151677952 ∧
    ∃ s1, kfree xv6 ⟨0, 0, fun i => if i = 1024 then 1 else 0, fun _ => 0⟩ 2151677952
        = some s1 ∧
      s1.pageframe_counters (frameIndex xv6 2151677952) = (1 : Int) - 1 ∧
      s1.freelist = 2151677952 ∧ s1.frees = 1 := by
  have hv : validFrame xv6 2151677952 := by decide
  have hi : frameIndex xv6 2151677952 = 1024 := by decide
  obtain ⟨s1, h1, h2, _, h4, _, _⟩ :=
    C2_kfree_positive_counter xv6 ⟨0, 0, fun i => if i = 1024 then 1 else 0, fun _ => 0⟩
      2151677952 hv (by rw [hi]; decide)
  refine ⟨hv, s1, h1, ?_, ?_, ?_⟩
  · rw [h2, hi]; simp
  · exact (h4 (by rw [hi]; simp)).1
  · have := (h4 (by rw [hi]; simp)).2.2
    simpa using this

/-- C3, as stated, fails: in the boot state frame `0x80400000` has counter 0,
and `kfree` of it changes the free-list head and `frees`; a second `kfree`
changes `frees` again. -/
theorem C3_counterexample :
    validFrame xv6 frameA ∧
    (bootState (fun _ => 0)).pageframe_counters (frameIndex xv6 frameA) = 0 ∧
    ∃ s1 s2, kfree xv6 (bootState (fun _ => 0)) frameA = some s1 ∧
      kfree xv6 s1 frameA = some s2 ∧
      s1.freelist ≠ (bootState (fun _ => 0)).freelist ∧
      s1.frees ≠ (bootState (fun _ => 0)).frees ∧
      s2.frees ≠ s1.frees := by
  have hv : validFrame xv6 frameA := by decide
  refine ⟨hv, rfl, _, _, kfree_push_shape xv6 _ frameA hv (Or.inl rfl),
    kfree_push_shape xv6 _ frameA hv (Or.inl ?_), ?_, ?_, ?_⟩
  · simp [bootState]
  · simp [bootState, frameA]
  · simp [bootState]
  · simp

/-- The boot-time use of `kfree`: `kinit1` over the two pages starting at
`0x80400000` zeroes their counters and then hands them to `kfree`, which links
both onto the free list although neither counter was ever positive. -/
theorem kinit1_links_zero_counter_frames (s : KState) :
    ∃ s1, kinit1 xv6 s frameA (frameA + 2 * PGSIZE) = some s1 ∧
      s1.frees = s.frees + 2 ∧ s1.freelist = frameA + PGSIZE ∧
      readPtr s1.mem (frameA + PGSIZE) = frameA ∧
      s1.pageframe_counters (frameIndex xv6 frameA) = 0 ∧
      s1.pageframe_counters (frameIndex xv6 (frameA + PGSIZE)) = 0 := by
  have hv0 : validFrame xv6 frameA := by decide
  have hv1 : validFrame xv6 (frameA + PGSIZE) := by decide
  have hn : (frameA + 2 * PGSIZE) / PGSIZE = 525311 + 1 + 1 + 1 := by decide
  have hp : PGROUNDUP frameA = frameA := by decide
  have c0 : frameA + PGSIZE ≤ frameA + 2 * PGSIZE := by decide
  have c1 : frameA + PGSIZE + PGSIZE ≤ frameA + 2 * PGSIZE := by decide
  have c2 : ¬ frameA + PGSIZE + PGSIZE + PGSIZE ≤ frameA + 2 * PGSIZE := by decide
  have hi0 : frameIndex xv6 frameA < NPAGEFRAMES xv6 := by decide
  have hi1 : frameIndex xv6 (frameA + PGSIZE) < NPAGEFRAMES xv6 := by decide
  have hne : frameIndex xv6 (frameA + PGSIZE) ≠ frameIndex xv6 frameA := by decide
  have hstep : ∀ (n p : Nat) (t : KState),
      freerangeLoop xv6 (frameA + 2 * PGSIZE) (n + 1) p t =
        if p + PGSIZE ≤ frameA + 2 * PGSIZE then
          match kfree xv6 t p with
          | some t1 => freerangeLoop xv6 (frameA + 2 * PGSIZE) n (p + PGSIZE) t1
          | none => none
        else some t := fun _ _ _ => rfl
  unfold kinit1 freerange
  rw [hn, hp, hstep, if_pos c0,
    kfree_push_shape xv6 _ frameA hv0 (Or.inl (by simp [hi0]))]
  simp only []
  rw [hstep, if_pos c1, kfree_push_shape xv6 _ (frameA + PGSIZE) hv1
    (Or.inl (by simp [Function.update, hne, hi1]))]
  simp only []
  rw [hstep, if_neg c2]
  refine ⟨_, rfl, ?_, rfl, ?_, ?_, ?_⟩
  · show s.frees + 1 + 1 = s.frees + 2
    omega
  · rw [readPtr_writePtr]; decide
  · simp [Function.update, hne.symm]
  · simp

/-- The bytes of a frame after `kfree` has linked it: past the `next` word the
frame holds the poison value 1. -/
theorem push_mem_poison (m : Mem) (p x a : Nat) (h1 : p + 4 ≤ a) (h2 : a < p + PGSIZE) :
    writePtr (memset m p 1 PGSIZE) p x a = 1 := by
  simp only [writePtr, memset]
  rw [if_neg (by omega), if_neg (by omega), if_neg (by omega), if_neg (by omega),
    if_pos ⟨by omega, h2⟩]

/-- Linking a frame changes no byte outside the frame. -/
theorem push_mem_outside (m : Mem) (p x a : Nat) (h : ¬ (p ≤ a ∧ a < p + PGSIZE)) :
    writePtr (memset m p 1 PGSIZE) p x a = m a := by
  simp only [PGSIZE] at h
  simp only [writePtr, memset, PGSIZE]
  rw [if_neg (by omega), if_neg (by omega), if_neg (by omega), if_neg (by omega),
    if_neg h]

/-- C3, amended: for a valid frame pointer `p` whose counter is 0, `kfree(p)`
leaves every counter unchanged but poisons the frame (every byte past its
`next` word becomes 1, no byte outside the frame changes), links `p` onto the
free-list head (its `next` is the old head) and raises `frees` by one; a
second `kfree(p)` right after it again leaves the counters unchanged, poisons
the frame again, raises `frees` once more and makes `p` its own `next`. -/
theorem C3_kfree_zero_counter (L : Layout) (s : KState) (p : Nat)
    (hv : validFrame L p) (h0 : s.pageframe_counters (frameIndex L p) = 0) :
    ∃ s1 s2, kfree L s p = some s1 ∧ kfree L s1 p = some s2 ∧
      s1.pageframe_counters = s.pageframe_counters ∧
      s1.freelist = p ∧ readPtr s1.mem p = s.freelist % WORD ∧
      s1.frees = s.frees + 1 ∧
      s2.pageframe_counters = s.pageframe_counters ∧
      s2.freelist = p ∧ readPtr s2.mem p = p % WORD ∧
      s2.frees = s.frees + 2 ∧
      (∀ a, p + 4 ≤ a → a < p + PGSIZE → s1.mem a = 1 ∧ s2.mem a = 1) ∧
      (∀ a, ¬ (p ≤ a ∧ a < p + PGSIZE) → s1.mem a = s.mem a ∧ s2.mem a = s.mem a) := by
  have hu : Function.update s.pageframe_counters (frameIndex L p) 0 =
      s.pageframe_counters := by
    rw [← h0]; exact Function.update_eq_self _ _
  refine ⟨_, _, kfree_push_shape L s p hv (Or.inl h0),
    kfree_push_shape L _ p hv (Or.inl ?_), ?_, rfl, readPtr_writePtr _ _ _, rfl,
    ?_, rfl, readPtr_writePtr _ _ _, ?_, ?_, ?_⟩
  · simp
  · exact hu
  · simp only [Function.update_idem]; exact hu
  · show s.frees + 1 + 1 = s.frees + 2
    omega
  · intro a h1 h2
    exact ⟨push_mem_poison _ _ _ _ h1 h2, push_mem_poison _ _ _ _ h1 h2⟩
  · intro a h
    refine ⟨push_mem_outside _ _ _ _ h, ?_⟩
    show writePtr (memset (writePtr (memset s.mem p 1 PGSIZE) p s.freelist) p 1 PGSIZE) p p a
      = s.mem a
    rw [push_mem_outside _ _ _ _ h, push_mem_outside _ _ _ _ h]

/-- Witness for the amended C3 in the stock layout at the boot state. -/
theorem C3_kfree_zero_counter_witness :
    validFrame xv6 frameA ∧
    ∃ s1 s2, kfree xv6 (bootState (fun _ => 0)) frameA = some s1 ∧
      kfree xv6 s1 frameA = some s2 ∧ s1.frees = 1 ∧ s2.frees = 2 ∧
      readPtr s2.mem frameA = frameA ∧ s1.mem (frameA + 100) = 1 := by
  have hv : validFrame xv6 frameA := by decide
  obtain ⟨s1, s2, h1, h2, _, _, _, h6, _, _, h9, h10, h11, _⟩ :=
    C3_kfree_zero_counter xv6 (bootState (fun _ => 0)) frameA hv rfl
  refine ⟨hv, s1, s2, h1, h2, ?_, ?_, ?_, ?_⟩
  · rw [h6]; rfl
  · rw [h10]; rfl
  · rw [h9]; rfl
  · exact (h11 (frameA + 100) (by decide) (by decide)).1

/-! ### The free list as a chain -/

theorem nodeAt_null (m : Mem) (n : Nat) : nodeAt m n 0 = 0 := by
  cases n <;> simp [nodeAt]

theorem readPtr_lt (m : Mem) (a : Nat) : readPtr m a < WORD := by
  simp only [readPtr, WORD]
  omega

theorem FreeChain.mem_of_nodeAt {m : Mem} :
    ∀ (n head : Nat) (l : List Nat), FreeChain m head l →
      nodeAt m n head ≠ 0 → nodeAt m n head ∈ l := by
  intro n
  induction n with
  | zero =>
    intro head l hl hne
    cases l with
    | nil => exact absurd hl hne
    | cons x l => simp [nodeAt, hl.2.1]
  | succ n ih =>
    intro head l hl hne
    cases l with
    | nil =>
      have h0 : head = 0 := hl
      simp [nodeAt, h0] at hne
    | cons x l =>
      obtain ⟨hh, hx, hrest⟩ := hl
      subst hx
      simp only [nodeAt, if_neg hh] at hne ⊢
      exact List.mem_cons_of_mem _ (ih _ l hrest hne)

theorem FreeChain.ne_zero {m : Mem} :
    ∀ (l : List Nat) (head : Nat), FreeChain m head l → ∀ v ∈ l, v ≠ 0 := by
  intro l
  induction l with
  | nil => intro head _ v hv; simp at hv
  | cons x l ih =>
    intro head hl v hv
    obtain ⟨hh, hx, hrest⟩ := hl
    rcases List.mem_cons.mp hv with h | h
    · rw [h, ← hx]; exact hh
    · exact ih _ hrest v h

theorem FreeChain.nodeAt_of_mem {m : Mem} :
    ∀ (l : List Nat) (head : Nat), FreeChain m head l →
      ∀ v ∈ l, ∃ n, nodeAt m n head = v := by
  intro l
  induction l with
  | nil => intro head _ v hv; simp at hv
  | cons x l ih =>
    intro head hl v hv
    obtain ⟨hh, hx, hrest⟩ := hl
    rcases List.mem_cons.mp hv with h | h
    · exact ⟨0, by simp [nodeAt, h, hx]⟩
    · obtain ⟨n, hn⟩ := ih _ hrest v h
      subst hx
      exact ⟨n + 1, by simp [nodeAt, hh, hn]⟩

theorem FreeChain.unique {m : Mem} :
    ∀ (l l2 : List Nat) (head : Nat), FreeChain m head l → FreeChain m head l2 →
      l = l2 := by
  intro l
  induction l with
  | nil =>
    intro l2 head h1 h2
    cases l2 with
    | nil => rfl
    | cons y l2 => exact absurd h1 h2.1
  | cons x l ih =>
    intro l2 head h1 h2
    cases l2 with
    | nil => exact absurd h2 h1.1
    | cons y l2 =>
      obtain ⟨_, hx, hr1⟩ := h1
      obtain ⟨_, hy, hr2⟩ := h2
      have hxy : x = y := hx.symm.trans hy
      subst hxy
      rw [ih l2 _ hr1 hr2]

theorem FreeChain.congr {m m2 : Mem} :
    ∀ (l : List Nat) (head : Nat), (∀ u ∈ l, readPtr m2 u = readPtr m u) →
      FreeChain m head l → FreeChain m2 head l := by
  intro l
  induction l with
  | nil => intro head _ h; exact h
  | cons x l ih =>
    intro head hrd h
    obtain ⟨hh, hx, hrest⟩ := h
    refine ⟨hh, hx, ?_⟩
    rw [hrd x (List.mem_cons_self _ _)]
    exact ih _ (fun u hu => hrd u (List.mem_cons_of_mem _ hu)) hrest

/-- Poisoning frame `v` and storing its `next` does not touch the `next` word
of another page-aligned frame. -/
theorem readPtr_push_other (m : Mem) (v x u : Nat) (hv : v % PGSIZE = 0)
    (hu : u % PGSIZE = 0) (hne : u ≠ v) :
    readPtr (writePtr (memset m v 1 PGSIZE) v x) u = readPtr m u := by
  simp only [PGSIZE] at hv hu
  have e : ∀ k, k < 4 → writePtr (memset m v 1 PGSIZE) v x (u + k) = m (u + k) := by
    intro k hk
    simp only [writePtr, memset, PGSIZE]
    split_ifs <;> first | rfl | omega
  have e0 := e 0 (by omega)
  simp only [Nat.add_zero] at e0
  simp only [readPtr, e0, e 1 (by omega), e 2 (by omega), e 3 (by omega)]

/-- Distinct valid 32-bit frame pointers have distinct counters. -/
theorem frameIndex_inj (L : Layout) (hL : L.WF) (u v : Nat) (hu : validFrame L u)
    (hv : validFrame L v) (hu32 : u < WORD) (hv32 : v < WORD)
    (h : frameIndex L u = frameIndex L v) : u = v := by
  obtain ⟨h1, h2, h3, h4⟩ := hL
  simp only [validFrame, V2P, frameIndex, sub32, PGSIZE, WORD, not_or, not_not, not_lt,
    ge_iff_le, not_le] at *
  omega

theorem validFrame_ne_zero (L : Layout) (hL : L.WF) (v : Nat) (hv : validFrame L v) :
    v ≠ 0 := by
  obtain ⟨h1, h2, h3, h4⟩ := hL
  simp only [validFrame, not_or, not_lt] at hv
  omega

/-! ### The allocator invariant -/

theorem allocInv_boot (L : Layout) (m : Mem) : AllocInv L (bootState m) := by
  refine ⟨by simp [bootState, WORD], [], rfl, List.nodup_nil, ?_, rfl⟩
  intro u hu
  simp at hu

theorem allocInv_kalloc {L : Layout} (hL : L.WF) {s : KState} (h : AllocInv L s) :
    AllocInv L (kalloc L s).2 := by
  by_cases h0 : s.freelist = 0
  · rw [kalloc_empty L s h0]; exact h
  · rw [kalloc_nonempty L s h0]
    obtain ⟨_, l, hl, hnd, hall, hfr⟩ := h
    cases l with
    | nil => exact absurd hl h0
    | cons x l =>
      obtain ⟨_, hx, hrest⟩ := hl
      subst hx
      refine ⟨readPtr_lt _ _, l, hrest, (List.nodup_cons.mp hnd).2, ?_, ?_⟩
      · intro u hu
        obtain ⟨huv, hu32, huc⟩ := hall u (List.mem_cons_of_mem _ hu)
        obtain ⟨hxv, hx32, _⟩ := hall s.freelist (List.mem_cons_self _ _)
        refine ⟨huv, hu32, ?_⟩
        have hne : frameIndex L u ≠ frameIndex L s.freelist := by
          intro hidx
          have := frameIndex_inj L hL u s.freelist huv hxv hu32 hx32 hidx
          subst this
          exact (List.nodup_cons.mp hnd).1 hu
        simp [Function.update, hne, huc]
      · simp only [List.length_cons, Nat.cast_add, Nat.cast_one] at hfr
        show s.frees - 1 = (l.length : Int)
        omega

theorem allocInv_kfree {L : Layout} (hL : L.WF) {s s1 : KState} (h : AllocInv L s)
    (v : Nat) (hv32 : v < WORD) (hnot : ¬ OnFreeList s v)
    (hk : kfree L s v = some s1) : AllocInv L s1 := by
  have hv : validFrame L v := by
    unfold validFrame
    intro hbad
    simp [kfree, hbad] at hk
  obtain ⟨hhead, l, hl, hnd, hall, hfr⟩ := h
  have hvl : v ∉ l := by
    intro hmem
    obtain ⟨n, hn⟩ := FreeChain.nodeAt_of_mem l _ hl v hmem
    exact hnot ⟨validFrame_ne_zero L hL v hv, n, hn⟩
  have hidx : ∀ u ∈ l, frameIndex L u ≠ frameIndex L v := by
    intro u hu hi
    obtain ⟨huv, hu32, _⟩ := hall u hu
    have := frameIndex_inj L hL u v huv hv hu32 hv32 hi
    subst this
    exact hvl hu
  by_cases hpush : s.pageframe_counters (frameIndex L v) = 0 ∨
      s.pageframe_counters (frameIndex L v) = 1
  · rw [kfree_push_shape L s v hv hpush] at hk
    cases hk
    have halign : v % PGSIZE = 0 := by
      simp only [validFrame, not_or, not_not] at hv
      exact hv.1
    refine ⟨hv32, v :: l, ⟨validFrame_ne_zero L hL v hv, rfl, ?_⟩,
      List.nodup_cons.mpr ⟨hvl, hnd⟩, ?_, ?_⟩
    · rw [readPtr_writePtr, Nat.mod_eq_of_lt hhead]
      refine FreeChain.congr l _ (fun u hu => ?_) hl
      obtain ⟨huv, _, _⟩ := hall u hu
      have hualign : u % PGSIZE = 0 := by
        simp only [validFrame, not_or, not_not] at huv
        exact huv.1
      exact readPtr_push_other _ _ _ _ halign hualign (fun e => hvl (e ▸ hu))
    · intro u hu
      rcases List.mem_cons.mp hu with e | hu
      · subst e
        exact ⟨hv, hv32, by simp⟩
      · obtain ⟨huv, hu32, huc⟩ := hall u hu
        exact ⟨huv, hu32, by simp [Function.update, hidx u hu, huc]⟩
    · simp only [List.length_cons, Nat.cast_add, Nat.cast_one]
      omega
  · have h0 : s.pageframe_counters (frameIndex L v) ≠ 0 := fun e => hpush (Or.inl e)
    have h1 : s.pageframe_counters (frameIndex L v) ≠ 1 := fun e => hpush (Or.inr e)
    rw [kfree_keep_shape L s v hv h0 h1] at hk
    cases hk
    refine ⟨hhead, l, hl, hnd, ?_, hfr⟩
    intro u hu
    obtain ⟨huv, hu32, huc⟩ := hall u hu
    exact ⟨huv, hu32, by simp [Function.update, hidx u hu, huc]⟩

theorem allocInv_of_reachable {L : Layout} (hL : L.WF) {s : KState}
    (h : ReachableNoRefree L s) : AllocInv L s := by
  induction h with
  | boot m => exact allocInv_boot L m
  | kalloc _ ih => exact allocInv_kalloc hL ih
  | kfree v _ hv32 hnot hk ih => exact allocInv_kfree hL ih v hv32 hnot hk

theorem not_onFreeList_boot (m : Mem) (v : Nat) : ¬ OnFreeList (bootState m) v := by
  rintro ⟨hv, n, hn⟩
  simp only [bootState, nodeAt_null] at hn
  exact hv hn.symm

theorem reachable_oneFreed : ReachableNoRefree xv6 oneFreed :=
  ReachableNoRefree.kfree frameA (ReachableNoRefree.boot (fun _ => 0)) (by decide)
    (not_onFreeList_boot _ _)
    (kfree_push_shape xv6 (bootState (fun _ => 0)) frameA (by decide) (Or.inl rfl))

/-- C4, as stated, fails in both directions: in the boot state frame 1024 has
counter 0 and is not reachable from the (empty) free list; and after
`kfree(p); kfree(p); kalloc()` the frame at the head of the free list has
counter 1. -/
theorem C4_counterexample :
    (Reachable xv6 (bootState (fun _ => 0)) ∧
      (bootState (fun _ => 0)).pageframe_counters (frameIndex xv6 frameA) = 0 ∧
      ¬ OnFreeList (bootState (fun _ => 0)) frameA) ∧
    ∃ s, runCalls xv6 (bootState (fun _ => 0))
        [AllocCall.kfree frameA, AllocCall.kfree frameA, AllocCall.kalloc] = some s ∧
      OnFreeList s frameA ∧ s.pageframe_counters (frameIndex xv6 frameA) = 1 := by
  have hv : validFrame xv6 frameA := by decide
  refine ⟨⟨⟨fun _ => 0, [], rfl⟩, rfl, not_onFreeList_boot _ _⟩, ?_⟩
  simp only [runCalls, kfree_push_shape xv6 (bootState (fun _ => 0)) frameA hv (Or.inl rfl)]
  rw [kfree_push_shape xv6 _ frameA hv (Or.inl (by simp [bootState]))]
  simp only [runCalls]
  refine ⟨_, rfl, ⟨by decide, 0, ?_⟩, ?_⟩
  · rw [kalloc_nonempty _ _ (by decide)]
    simp only [nodeAt]
    rw [readPtr_writePtr]
    decide
  · rw [kalloc_nonempty _ _ (by decide)]
    simp

theorem onFreeList_iff_mem (s : KState) (l : List Nat)
    (hl : FreeChain s.mem s.freelist l) (v : Nat) : OnFreeList s v ↔ v ∈ l := by
  constructor
  · rintro ⟨hne, n, hn⟩
    have := FreeChain.mem_of_nodeAt n _ l hl (by rw [hn]; exact hne)
    rwa [hn] at this
  · intro hv
    exact ⟨FreeChain.ne_zero l _ hl v hv, FreeChain.nodeAt_of_mem l _ hl v hv⟩

theorem trackedInv_boot (L : Layout) (m : Mem) : TrackedInv L (bootState m) [] := by
  refine ⟨by simp [bootState, WORD], [], rfl, List.nodup_nil, ?_, ?_, fun _ _ => rfl⟩
  · intro u hu; simp at hu
  · intro v hv; simp at hv

theorem trackedInv_kalloc {L : Layout} (hL : L.WF) {s : KState} {F : List Nat}
    (h : TrackedInv L s F) : TrackedInv L (kalloc L s).2 F := by
  by_cases h0 : s.freelist = 0
  · rw [kalloc_empty L s h0]; exact h
  · rw [kalloc_nonempty L s h0]
    obtain ⟨_, l, hl, hnd, hlist, hfreed, hnever⟩ := h
    cases l with
    | nil => exact absurd hl h0
    | cons x l =>
      obtain ⟨_, hx, hrest⟩ := hl
      subst hx
      have hxF : s.freelist ∈ F := (hlist _ (List.mem_cons_self _ _)).1
      have hxv := hfreed _ hxF
      have hxl : s.freelist ∉ l := (List.nodup_cons.mp hnd).1
      have hidx : ∀ v ∈ F, v ≠ s.freelist → frameIndex L v ≠ frameIndex L s.freelist := by
        intro v hv hne hi
        have hvv := hfreed v hv
        exact hne (frameIndex_inj L hL v s.freelist hvv.1 hxv.1 hvv.2.1 hxv.2.1 hi)
      refine ⟨readPtr_lt _ _, l, hrest, (List.nodup_cons.mp hnd).2, ?_, ?_, ?_⟩
      · intro u hu
        obtain ⟨huF, huc⟩ := hlist u (List.mem_cons_of_mem _ hu)
        have hne : u ≠ s.freelist := fun e => hxl (e ▸ hu)
        exact ⟨huF, by simp [Function.update, hidx u huF hne, huc]⟩
      · intro v hv
        obtain ⟨hvv, hv32, hvc⟩ := hfreed v hv
        refine ⟨hvv, hv32, fun hc => ?_⟩
        by_cases hne : v = s.freelist
        · subst hne
          simp at hc
        · have hc2 : s.pageframe_counters (frameIndex L v) = 0 := by
            simpa [Function.update, hidx v hv hne] using hc
          rcases List.mem_cons.mp (hvc hc2) with e | e
          · exact absurd e hne
          · exact e
      · intro i hi
        have hne : i ≠ frameIndex L s.freelist := fun e => hi _ hxF e.symm
        simp [Function.update, hne, hnever i hi]

theorem trackedInv_kfree {L : Layout} (hL : L.WF) {s s1 : KState} {F : List Nat}
    (h : TrackedInv L s F) (v : Nat) (hv32 : v < WORD) (hnot : ¬ OnFreeList s v)
    (hk : kfree L s v = some s1) : TrackedInv L s1 (v :: F) := by
  have hv : validFrame L v := by
    unfold validFrame
    intro hbad
    simp [Xv6.kfree, hbad] at hk
  obtain ⟨hhead, l, hl, hnd, hlist, hfreed, hnever⟩ := h
  have hvl : v ∉ l := fun hmem => hnot ((onFreeList_iff_mem s l hl v).mpr hmem)
  have hidx : ∀ u ∈ F, u ≠ v → frameIndex L u ≠ frameIndex L v := by
    intro u hu hne hi
    have huv := hfreed u hu
    exact hne (frameIndex_inj L hL u v huv.1 hv huv.2.1 hv32 hi)
  by_cases hpush : s.pageframe_counters (frameIndex L v) = 0 ∨
      s.pageframe_counters (frameIndex L v) = 1
  · rw [kfree_push_shape L s v hv hpush] at hk
    cases hk
    have halign : v % PGSIZE = 0 := by
      simp only [validFrame, not_or, not_not] at hv
      exact hv.1
    refine ⟨hv32, v :: l, ⟨validFrame_ne_zero L hL v hv, rfl, ?_⟩,
      List.nodup_cons.mpr ⟨hvl, hnd⟩, ?_, ?_, ?_⟩
    · rw [readPtr_writePtr, Nat.mod_eq_of_lt hhead]
      refine FreeChain.congr l _ (fun u hu => ?_) hl
      have huv := hfreed u (hlist u hu).1
      have hualign : u % PGSIZE = 0 := by
        have := huv.1
        simp only [validFrame, not_or, not_not] at this
        exact this.1
      exact readPtr_push_other _ _ _ _ halign hualign (fun e => hvl (e ▸ hu))
    · intro u hu
      rcases List.mem_cons.mp hu with e | hu
      · subst e
        exact ⟨List.mem_cons_self _ _, by simp⟩
      · obtain ⟨huF, huc⟩ := hlist u hu
        have hne : u ≠ v := fun e => hvl (e ▸ hu)
        exact ⟨List.mem_cons_of_mem _ huF, by simp [Function.update, hidx u huF hne, huc]⟩
    · intro u hu
      rcases List.mem_cons.mp hu with e | huF
      · subst e
        exact ⟨hv, hv32, fun _ => List.mem_cons_self _ _⟩
      · obtain ⟨huv, hu32, huc⟩ := hfreed u huF
        refine ⟨huv, hu32, fun hc => ?_⟩
        by_cases hne : u = v
        · subst hne; exact List.mem_cons_self _ _
        · have hc2 : s.pageframe_counters (frameIndex L u) = 0 := by
            simpa [Function.update, hidx u huF hne] using hc
          exact List.mem_cons_of_mem _ (huc hc2)
    · intro i hi
      have hne : i ≠ frameIndex L v := fun e => hi v (List.mem_cons_self _ _) e.symm
      have := hnever i (fun u hu => hi u (List.mem_cons_of_mem _ hu))
      simp [Function.update, hne, this]
  · have h0 : s.pageframe_counters (frameIndex L v) ≠ 0 := fun e => hpush (Or.inl e)
    have h1 : s.pageframe_counters (frameIndex L v) ≠ 1 := fun e => hpush (Or.inr e)
    rw [kfree_keep_shape L s v hv h0 h1] at hk
    cases hk
    refine ⟨hhead, l, hl, hnd, ?_, ?_, ?_⟩
    · intro u hu
      obtain ⟨huF, huc⟩ := hlist u hu
      have hne : u ≠ v := fun e => hvl (e ▸ hu)
      exact ⟨List.mem_cons_of_mem _ huF, by simp [Function.update, hidx u huF hne, huc]⟩
    · intro u hu
      rcases List.mem_cons.mp hu with e | huF
      · subst e
        refine ⟨hv, hv32, fun hc => ?_⟩
        simp only [Function.update_same] at hc
        omega
      · obtain ⟨huv, hu32, huc⟩ := hfreed u huF
        refine ⟨huv, hu32, fun hc => ?_⟩
        by_cases hne : u = v
        · subst hne
          simp only [Function.update_same] at hc
          omega
        · have hc2 : s.pageframe_counters (frameIndex L u) = 0 := by
            simpa [Function.update, hidx u huF hne] using hc
          exact huc hc2
    · intro i hi
      have hne : i ≠ frameIndex L v := fun e => hi v (List.mem_cons_self _ _) e.symm
      have := hnever i (fun u hu => hi u (List.mem_cons_of_mem _ hu))
      simp [Function.update, hne, this]

theorem trackedInv_of_reachable {L : Layout} (hL : L.WF) {s : KState} {F : List Nat}
    (h : ReachableTracked L s F) : TrackedInv L s F := by
  induction h with
  | boot m => exact trackedInv_boot L m
  | kalloc _ ih => exact trackedInv_kalloc hL ih
  | kfree v _ hv32 hnot hk ih => exact trackedInv_kfree hL ih v hv32 hnot hk

/-- The tracked runs are the runs of `ReachableNoRefree`. -/
theorem reachableTracked_iff (L : Layout) (s : KState) :
    ReachableNoRefree L s ↔ ∃ F, ReachableTracked L s F := by
  constructor
  · intro h
    induction h with
    | boot m => exact ⟨[], ReachableTracked.boot m⟩
    | kalloc _ ih =>
      obtain ⟨F, hF⟩ := ih
      exact ⟨F, ReachableTracked.kalloc hF⟩
    | kfree v _ hv32 hnot hk ih =>
      obtain ⟨F, hF⟩ := ih
      exact ⟨v :: F, ReachableTracked.kfree v hF hv32 hnot hk⟩
  · rintro ⟨F, h⟩
    induction h with
    | boot m => exact ReachableNoRefree.boot m
    | kalloc _ ih => exact ReachableNoRefree.kalloc ih
    | kfree v _ hv32 hnot hk ih => exact ReachableNoRefree.kfree v ih hv32 hnot hk

theorem reachableTracked_oneFreed : ReachableTracked xv6 oneFreed [frameA] :=
  ReachableTracked.kfree frameA (ReachableTracked.boot (fun _ => 0)) (by decide)
    (not_onFreeList_boot _ _)
    (kfree_push_shape xv6 (bootState (fun _ => 0)) frameA (by decide) (Or.inl rfl))

/-- C4, amended: in every state reachable from the boot state (all counters
zero, empty free list) by `kalloc` calls and by `kfree` calls on valid frame
pointers that are not on the free list when freed, with `F` the pointers passed
to `kfree` so far: for every frame `i` the counter is 0 if and only if frame
`i` is reachable from the free-list head or was never passed to `kfree`; in
particular, for every pointer that was passed to `kfree`, the counter is 0 if
and only if the frame is reachable from the free-list head, and every frame
reachable from the head was passed to `kfree`. -/
theorem C4_counter_zero_iff_free_or_never_freed (L : Layout) (hL : L.WF) (s : KState)
    (F : List Nat) (hs : ReachableTracked L s F) :
    (∀ i, s.pageframe_counters i = 0 ↔
      ((∃ v, OnFreeList s v ∧ frameIndex L v = i) ∨ ∀ v ∈ F, frameIndex L v ≠ i)) ∧
    (∀ v ∈ F, s.pageframe_counters (frameIndex L v) = 0 ↔ OnFreeList s v) ∧
    (∀ v, OnFreeList s v → v ∈ F) := by
  obtain ⟨_, l, hl, _, hlist, hfreed, hnever⟩ := trackedInv_of_reachable hL hs
  have hon : ∀ v, OnFreeList s v ↔ v ∈ l := onFreeList_iff_mem s l hl
  refine ⟨fun i => ⟨fun hc => ?_, ?_⟩, fun v hv => ⟨fun hc => ?_, fun ho => ?_⟩,
    fun v ho => (hlist v ((hon v).mp ho)).1⟩
  · by_cases hex : ∃ v ∈ F, frameIndex L v = i
    · obtain ⟨v, hv, hi⟩ := hex
      left
      refine ⟨v, (hon v).mpr ((hfreed v hv).2.2 ?_), hi⟩
      rw [hi]; exact hc
    · right
      intro v hv hi
      exact hex ⟨v, hv, hi⟩
  · rintro (⟨v, ho, hi⟩ | hn)
    · rw [← hi]
      exact (hlist v ((hon v).mp ho)).2
    · exact hnever i hn
  · exact (hon v).mpr ((hfreed v hv).2.2 hc)
  · exact (hlist v ((hon v).mp ho)).2

/-- Witness for the amended C4: the state after one `kfree` from boot. -/
theorem C4_counter_zero_iff_free_or_never_freed_witness :
    xv6.WF ∧ ReachableTracked xv6 oneFreed [frameA] ∧
      (oneFreed.pageframe_counters (frameIndex xv6 frameA) = 0 ↔ OnFreeList oneFreed frameA) ∧
      OnFreeList oneFreed frameA :=
  ⟨by decide, reachableTracked_oneFreed,
    (C4_counter_zero_iff_free_or_never_freed xv6 (by decide) oneFreed [frameA]
      reachableTracked_oneFreed).2.1 frameA (List.mem_cons_self _ _),
    ⟨by decide, 0, rfl⟩⟩

/-- C5, as stated, fails: after `kfree(p); kfree(p); kalloc(); kalloc()` from
the boot state `sys_frees` returns 0 although `kalloc` would return the
non-null frame `p`; the free list is then a cycle, so no finite list of frames
has length `frees`. -/
theorem C5_counterexample :
    ∃ s, runCalls xv6 (bootState (fun _ => 0))
        [AllocCall.kfree frameA, AllocCall.kfree frameA, AllocCall.kalloc,
          AllocCall.kalloc] = some s ∧
      sys_frees s = 0 ∧ (kalloc xv6 s).1 = frameA ∧ (kalloc xv6 s).1 ≠ 0 ∧
      ¬ ∃ l : List Nat, FreeChain s.mem s.freelist l ∧ sys_frees s = l.length := by
  have hv : validFrame xv6 frameA := by decide
  simp only [runCalls, kfree_push_shape xv6 (bootState (fun _ => 0)) frameA hv (Or.inl rfl)]
  rw [kfree_push_shape xv6 _ frameA hv (Or.inl (by simp [bootState]))]
  simp only [runCalls]
  rw [kalloc_nonempty _ _ (by decide)]
  have hself : ∀ m : Mem, readPtr (writePtr m frameA frameA) frameA = frameA :=
    fun m => by rw [readPtr_writePtr]; decide
  rw [kalloc_nonempty _ _ (by simp only [hself]; decide)]
  simp only [hself]
  have hret : ∀ (f : Int) (c : Nat → Int) (m : Mem),
      (kalloc xv6 ⟨frameA, f, c, m⟩).1 = frameA :=
    fun f c m => by
      have hne : (KState.mk frameA f c m).freelist ≠ 0 := by
        show frameA ≠ 0
        decide
      rw [kalloc_nonempty _ _ hne]
  refine ⟨_, rfl, ?_, hret _ _ _, ?_, ?_⟩
  · simp [sys_frees, bootState]
  · rw [hret]; decide
  · rintro ⟨l, hl, hlen⟩
    have h0 : l.length = 0 := by
      simp only [sys_frees, bootState] at hlen
      omega
    rw [List.length_eq_zero] at h0
    subst h0
    exact absurd hl (by decide)

/-- C5, amended: in every state reachable from the boot state (`frees = 0`,
empty free list) by `kalloc` calls and by `kfree` calls on valid frame pointers
that are not on the free list when freed, the free list is a finite chain, the
value returned by `sys_frees` equals its length, and that value is 0 exactly
when `kalloc` would return null. -/
theorem C5_frees_is_free_list_length (L : Layout) (hL : L.WF) (s : KState)
    (hs : ReachableNoRefree L s) :
    (∃ l : List Nat, FreeChain s.mem s.freelist l) ∧
    (∀ l : List Nat, FreeChain s.mem s.freelist l → sys_frees s = l.length) ∧
    (sys_frees s = 0 ↔ (kalloc L s).1 = 0) := by
  obtain ⟨_, l, hl, _, _, hfr⟩ := allocInv_of_reachable hL hs
  refine ⟨⟨l, hl⟩, ?_, ?_⟩
  · intro l2 hl2
    rw [← FreeChain.unique l l2 _ hl hl2]
    exact hfr
  · have hret : (kalloc L s).1 = s.freelist := by
      by_cases h0 : s.freelist = 0
      · rw [kalloc_empty L s h0, h0]
      · rw [kalloc_nonempty L s h0]
    rw [hret]
    cases l with
    | nil =>
      have h0 : s.freelist = 0 := hl
      simp [sys_frees, hfr, h0]
    | cons x l =>
      have hne : s.freelist ≠ 0 := hl.1
      simp only [sys_frees, hfr, List.length_cons, Nat.cast_add, Nat.cast_one]
      constructor
      · intro h; omega
      · intro h; exact absurd h hne

/-- Witness for the amended C5: the state after one `kfree` from boot. -/
theorem C5_frees_is_free_list_length_witness :
    xv6.WF ∧ ReachableNoRefree xv6 oneFreed ∧
      FreeChain oneFreed.mem oneFreed.freelist [frameA] ∧
      sys_frees oneFreed = ([frameA].length : Int) := by
  have h := C5_frees_is_free_list_length xv6 (by decide) oneFreed reachable_oneFreed
  have hc : FreeChain oneFreed.mem oneFreed.freelist [frameA] := by
    refine ⟨by decide, rfl, ?_⟩
    show readPtr (writePtr _ frameA 0) frameA = 0
    rw [readPtr_writePtr]; decide
  exact ⟨by decide, reachable_oneFreed, hc, h.2.1 _ hc⟩

/-! ## Theorems: the page-fault resolver -/

theorem and_or_right (a b c : Nat) : (a ||| b) &&& c = (a &&& c) ||| (b &&& c) := by
  apply Nat.eq_of_testBit_eq
  intro i
  simp only [Nat.testBit_or, Nat.testBit_and]
  cases a.testBit i <;> cases b.testBit i <;> cases c.testBit i <;> rfl

theorem or_and_self (a b : Nat) : (a ||| b) &&& b = b := by
  apply Nat.eq_of_testBit_eq
  intro i
  simp only [Nat.testBit_or, Nat.testBit_and]
  cases a.testBit i <;> cases b.testBit i <;> rfl

theorem and_mask_and (x m b : Nat) (h : m &&& b = b) : (x &&& m) &&& b = x &&& b := by
  rw [Nat.and_assoc, h]

theorem and_mask_zero (x m b : Nat) (h : m &&& b = 0) : (x &&& m) &&& b = 0 := by
  rw [Nat.and_assoc, h, Nat.and_zero]

/-- Clearing the copy-on-write bit leaves it clear. -/
theorem cow_cleared (L : Layout) (hcow : L.CowBitOK) (x : Nat) :
    (x &&& not32 L.PTE_COW) &&& L.PTE_COW = 0 := by
  apply and_mask_zero
  rcases hcow with h | h | h <;> rw [h] <;> decide

/-- Clearing the copy-on-write bit keeps the writable bit. -/
theorem cow_cleared_keeps_W (L : Layout) (hcow : L.CowBitOK) (x : Nat) :
    (x &&& not32 L.PTE_COW) &&& PTE_W = x &&& PTE_W := by
  apply and_mask_and
  rcases hcow with h | h | h <;> rw [h] <;> decide

/-- Clearing the copy-on-write bit keeps the present bit. -/
theorem cow_cleared_keeps_P (L : Layout) (hcow : L.CowBitOK) (x : Nat) :
    (x &&& not32 L.PTE_COW) &&& PTE_P = x &&& PTE_P := by
  apply and_mask_and
  rcases hcow with h | h | h <;> rw [h] <;> decide

/-- Clearing the copy-on-write bit keeps the address field. -/
theorem cow_cleared_keeps_addr (L : Layout) (hcow : L.CowBitOK) (x : Nat) :
    PTE_ADDR (x &&& not32 L.PTE_COW) = PTE_ADDR x := by
  unfold PTE_ADDR
  apply and_mask_and
  rcases hcow with h | h | h <;> rw [h] <;> decide

theorem or_W_keeps_addr (x : Nat) : PTE_ADDR (x ||| PTE_W) = PTE_ADDR x := by
  unfold PTE_ADDR
  rw [and_or_right]
  have : PTE_W &&& 4294963200 = 0 := by decide
  rw [this, Nat.or_zero]

theorem or_W_keeps_P (x : Nat) : (x ||| PTE_W) &&& PTE_P = x &&& PTE_P := by
  rw [and_or_right]
  have : PTE_W &&& PTE_P = 0 := by decide
  rw [this, Nat.or_zero]

theorem flags_have_W (y : Nat) : (y ||| PTE_P ||| PTE_W ||| PTE_U) &&& PTE_W = PTE_W := by
  apply Nat.eq_of_testBit_eq
  intro i
  simp only [Nat.testBit_or, Nat.testBit_and]
  cases y.testBit i <;> cases PTE_P.testBit i <;> cases PTE_W.testBit i <;>
    cases PTE_U.testBit i <;> rfl

theorem walkpgdir2_setPte (pg : PgDir) (va e : Nat) :
    walkpgdir2 (setPte pg va e) va = some e := by
  simp [walkpgdir2, setPte]

theorem pgfault_cow_eq (L : Layout) (k : Kernel) (cr2 e : Nat)
    (hpte : walkpgdir2 k.p.pgdir (PGROUNDDOWN cr2) = some e)
    (hP : e &&& PTE_P ≠ 0) (hW : e &&& PTE_W = 0) (hC : e &&& L.PTE_COW ≠ 0) :
    pgfault L k cr2 = pgfaultCow L k (PGROUNDDOWN cr2) e := by
  simp only [pgfault, hpte]
  rw [if_pos ⟨hP, hW, hC⟩]

/-- For a page-aligned 32-bit frame address the copy-on-write mask changes
nothing in `addr | P | W | U`. -/
theorem cow_clear_exact (L : Layout) (hcow : L.CowBitOK) (y : Nat) (hy : y < WORD)
    (hal : y % PGSIZE = 0) :
    (y ||| PTE_P ||| PTE_W ||| PTE_U) &&& not32 L.PTE_COW =
      y ||| PTE_P ||| PTE_W ||| PTE_U := by
  unfold Layout.CowBitOK at hcow
  simp only [PTE_P, PTE_W, PTE_U, not32, WORD, PGSIZE] at *
  have hx : y ||| 1 ||| 2 ||| 4 < 2 ^ 32 := by
    apply Nat.or_lt_two_pow _ (by norm_num)
    apply Nat.or_lt_two_pow _ (by norm_num)
    apply Nat.or_lt_two_pow _ (by norm_num)
    simpa using hy
  have hM : (y ||| 1 ||| 2 ||| 4) &&& 4294967295 = y ||| 1 ||| 2 ||| 4 := by
    have := Nat.and_pow_two_sub_one_eq_mod (y ||| 1 ||| 2 ||| 4) 32
    simp only [Nat.reducePow, Nat.add_one_sub_one] at this
    rw [this]
    exact Nat.mod_eq_of_lt hx
  have hy0 : y &&& 4095 = 0 := by
    have := Nat.and_pow_two_sub_one_eq_mod y 12
    simp only [Nat.reducePow] at this
    rw [this]; exact hal
  have hc4 : 4095 &&& L.PTE_COW = L.PTE_COW := by
    rcases hcow with h | h | h <;> rw [h] <;> decide
  have h1 : 1 &&& L.PTE_COW = 0 := by rcases hcow with h | h | h <;> rw [h] <;> decide
  have h2 : 2 &&& L.PTE_COW = 0 := by rcases hcow with h | h | h <;> rw [h] <;> decide
  have h4 : 4 &&& L.PTE_COW = 0 := by rcases hcow with h | h | h <;> rw [h] <;> decide
  have hyc : y &&& L.PTE_COW = 0 := by
    rw [← hc4, ← Nat.and_assoc, hy0, Nat.zero_and]
  have hxc : (y ||| 1 ||| 2 ||| 4) &&& L.PTE_COW = 0 := by
    rw [and_or_right, and_or_right, and_or_right, hyc, h1, h2, h4]
    rfl
  rw [Nat.and_xor_distrib_left, hM, hxc, Nat.xor_zero]

/-- C6: for a fault on an entry with P=1, W=0, CoW=1 the resolver does not
panic on the in-place path and does not mark the process killed. If the frame
counter exceeds 1 and the free-list head is a frame other than the faulting
one, the entry becomes `(V2P(new) | P | W | U) & ~CoW` (which is just
`V2P(new) | P | W | U` for a page-aligned frame), it is writable with CoW
clear, the new frame holds the old frame's bytes, its counter is 1, the old
frame's counter drops by exactly one, no other counter changes, and the free
list only loses its head (the old frame is not pushed). If the counter is 1
(or, as the source tests it, not greater than 1) the entry keeps its address
field and P, gains W, loses CoW, and the allocator state (all counters, free
list) is unchanged. -/
theorem C6_cow_fault (L : Layout) (hcow : L.CowBitOK) (k : Kernel) (cr2 e : Nat)
    (hpte : walkpgdir2 k.p.pgdir (PGROUNDDOWN cr2) = some e)
    (hP : e &&& PTE_P ≠ 0) (hW : e &&& PTE_W = 0) (hC : e &&& L.PTE_COW ≠ 0) :
    (k.kmem.pageframe_counters (PTE_ADDR e / PGSIZE) > 1 → k.kmem.freelist ≠ 0 →
      frameIndex L k.kmem.freelist ≠ PTE_ADDR e / PGSIZE →
      ∃ k1 e1, pgfault L k cr2 = some k1 ∧
        walkpgdir2 k1.p.pgdir (PGROUNDDOWN cr2) = some e1 ∧
        e1 = (V2P L k.kmem.freelist ||| PTE_P ||| PTE_W ||| PTE_U) &&& not32 L.PTE_COW ∧
        (V2P L k.kmem.freelist % PGSIZE = 0 →
          e1 = V2P L k.kmem.freelist ||| PTE_P ||| PTE_W ||| PTE_U) ∧
        e1 &&& PTE_W ≠ 0 ∧ e1 &&& L.PTE_COW = 0 ∧
        k1.p.killed = k.p.killed ∧
        (∀ j, j < PGSIZE →
          k1.kmem.mem (k.kmem.freelist + j) = k.kmem.mem (P2V L (PTE_ADDR e) + j)) ∧
        (∀ a, ¬ (k.kmem.freelist ≤ a ∧ a < k.kmem.freelist + PGSIZE) →
          k1.kmem.mem a = k.kmem.mem a) ∧
        k1.kmem.pageframe_counters (frameIndex L k.kmem.freelist) = 1 ∧
        k1.kmem.pageframe_counters (PTE_ADDR e / PGSIZE) =
          k.kmem.pageframe_counters (PTE_ADDR e / PGSIZE) - 1 ∧
        (∀ j, j ≠ frameIndex L k.kmem.freelist → j ≠ PTE_ADDR e / PGSIZE →
          k1.kmem.pageframe_counters j = k.kmem.pageframe_counters j) ∧
        k1.kmem.freelist = readPtr k.kmem.mem k.kmem.freelist ∧
        k1.kmem.frees = k.kmem.frees - 1) ∧
    (k.kmem.pageframe_counters (PTE_ADDR e / PGSIZE) ≤ 1 →
      ∃ k1 e1, pgfault L k cr2 = some k1 ∧
        walkpgdir2 k1.p.pgdir (PGROUNDDOWN cr2) = some e1 ∧
        e1 = (e ||| PTE_W) &&& not32 L.PTE_COW ∧
        PTE_ADDR e1 = PTE_ADDR e ∧ e1 &&& PTE_P ≠ 0 ∧
        e1 &&& PTE_W ≠ 0 ∧ e1 &&& L.PTE_COW = 0 ∧
        k1.p.killed = k.p.killed ∧ k1.kmem = k.kmem) := by
  rw [pgfault_cow_eq L k cr2 e hpte hP hW hC]
  constructor
  · intro hgt hfl hne
    have hgt2 : k.kmem.pageframe_counters (PTE_ADDR e / PGSIZE) > 1 := hgt
    simp only [pgfaultCow, if_pos hgt2, kalloc_nonempty L k.kmem hfl, if_neg hfl]
    refine ⟨_, _, rfl, walkpgdir2_setPte _ _ _, rfl, ?_, ?_, cow_cleared L hcow _, rfl,
      ?_, ?_, ?_, ?_, ?_, rfl, rfl⟩
    · intro hal
      refine cow_clear_exact L hcow _ ?_ hal
      simp only [V2P, sub32]
      exact Nat.mod_lt _ (by decide)
    · rw [cow_cleared_keeps_W L hcow, flags_have_W]
      decide
    · intro j hj
      simp only [memmove]
      rw [if_pos ⟨Nat.le_add_right _ _, Nat.add_lt_add_left hj _⟩]
      simp
    · intro a ha
      simp only [memmove]
      rw [if_neg ha]
    · simp [Function.update, hne]
    · simp [Function.update, Ne.symm hne]
    · intro j h1 h2
      simp [Function.update, h1, h2]
  · intro h1
    have hle : ¬ k.kmem.pageframe_counters (PTE_ADDR e / PGSIZE) > 1 := by omega
    simp only [pgfaultCow, if_neg hle]
    refine ⟨_, _, rfl, walkpgdir2_setPte _ _ _, rfl, ?_, ?_, ?_, cow_cleared L hcow _,
      rfl, rfl⟩
    · rw [cow_cleared_keeps_addr L hcow, or_W_keeps_addr]
    · rw [cow_cleared_keeps_P L hcow, or_W_keeps_P]
      exact hP
    · rw [cow_cleared_keeps_W L hcow, or_and_self]
      decide

/-- Witness for C6: the fault at `0x10004` in `cowKernel` (frame 2048 shared
with counter 2, frame 1024 free) is resolved by a copy. -/
theorem C6_cow_fault_witness :
    xv6.CowBitOK ∧ walkpgdir2 cowKernel.p.pgdir (PGROUNDDOWN 65540) = some 8389125 ∧
    ∃ k1, pgfault xv6 cowKernel 65540 = some k1 ∧
      walkpgdir2 k1.p.pgdir (PGROUNDDOWN 65540) = some 4194311 ∧
      k1.kmem.mem frameA = 170 ∧
      k1.kmem.pageframe_counters 1024 = 1 ∧ k1.kmem.pageframe_counters 2048 = 1 := by
  have hp : walkpgdir2 cowKernel.p.pgdir (PGROUNDDOWN 65540) = some 8389125 := by decide
  obtain ⟨k1, e1, h1, h2, h3, _, _, _, _, h8, _, h10, h11, _⟩ :=
    (C6_cow_fault xv6 (by decide) cowKernel 65540 8389125 hp (by decide) (by decide)
      (by decide)).1 (by decide) (by decide) (by decide)
  refine ⟨by decide, hp, k1, h1, ?_, ?_, ?_, ?_⟩
  · rw [h2, h3]; decide
  · have := h8 0 (by decide)
    rw [Nat.add_zero] at this
    rw [show frameA = cowKernel.kmem.freelist from rfl, this]
    decide
  · have : frameIndex xv6 cowKernel.kmem.freelist = 1024 := by decide
    rw [this] at h10
    exact h10
  · have : PTE_ADDR 8389125 / PGSIZE = 2048 := by decide
    rw [this] at h11
    rw [h11]; decide

/-- C7 (evaluation at the failing input): in `staleKernel` no region slot is
used, the entry at `0x7FFFF000` is not a copy-on-write share, yet the resolver
does not mark the process killed: it takes the stale slot 0, sets the W bit of
the cleared entry and marks the unused slot dirty. -/
theorem C7_stale_slot_fault :
    (∀ i, i < MAX_MMAPS_PROC → (staleKernel.p.mmaps i).used = 0) ∧
    walkpgdir2 staleKernel.p.pgdir (PGROUNDDOWN 2147479552) = some 0 ∧
    ∃ k1, pgfault xv6 staleKernel 2147479552 = some k1 ∧
      k1.p.killed = 0 ∧
      walkpgdir2 k1.p.pgdir (PGROUNDDOWN 2147479552) = some PTE_W ∧
      (k1.p.mmaps 0).dirty = 1 ∧ (k1.p.mmaps 0).used = 0 := by
  refine ⟨?_, by decide, ?_⟩
  · intro i _
    by_cases h : i = 0
    · subst h; rfl
    · simp [staleKernel, h, noArea]
  · have hw : walkpgdir2 staleKernel.p.pgdir (PGROUNDDOWN 2147479552) = some 0 := by decide
    have hl : faultLookup staleKernel.p.mmaps (PGROUNDDOWN 2147479552) MAX_MMAPS_PROC 0 = 0 := by
      decide
    have hfl : toU32 (staleKernel.p.mmaps 0).flags &&& MAP_PROT_WRITE ≠ 0 := by decide
    have h0 : (0 : Nat) ≠ MAX_MMAPS_PROC := by decide
    simp only [pgfault, hw, pgfaultMmap, hl, if_neg h0, if_pos hfl]
    rw [if_neg (by decide)]
    refine ⟨_, rfl, rfl, walkpgdir2_setPte _ _ _, ?_, ?_⟩
    · simp
    · simp [staleKernel]

/-! ## Theorems: the mmap manager -/

theorem mmapFreeSlot_full (mm : Nat → mmap_area)
    (h : ∀ i, i < MAX_MMAPS_PROC → (mm i).used ≠ 0) :
    mmapFreeSlot mm MAX_MMAPS_PROC 0 = MAX_MMAPS_PROC := by
  have h0 := h 0 (by decide)
  have h1 := h 1 (by decide)
  have h2 := h 2 (by decide)
  have h3 := h 3 (by decide)
  simp [mmapFreeSlot, MAX_MMAPS_PROC, h0, h1, h2, h3]

theorem mmapFreeSlot_first (mm : Nat → mmap_area) (i : Nat) (hi : i < MAX_MMAPS_PROC)
    (hu : (mm i).used = 0) (hfirst : ∀ j, j < i → (mm j).used ≠ 0) :
    mmapFreeSlot mm MAX_MMAPS_PROC 0 = i := by
  have hcases : i = 0 ∨ i = 1 ∨ i = 2 ∨ i = 3 := by
    simp only [MAX_MMAPS_PROC] at hi
    omega
  rcases hcases with h | h | h | h <;> subst h
  · simp [mmapFreeSlot, MAX_MMAPS_PROC, hu]
  · simp [mmapFreeSlot, MAX_MMAPS_PROC, hu, hfirst 0 (by decide)]
  · simp [mmapFreeSlot, MAX_MMAPS_PROC, hu, hfirst 0 (by decide), hfirst 1 (by decide)]
  · simp [mmapFreeSlot, MAX_MMAPS_PROC, hu, hfirst 0 (by decide), hfirst 1 (by decide),
      hfirst 2 (by decide)]

/-- C8: if the file pointer is null or the file is not readable, or `off` is
not a multiple of `PGSIZE`, or `len <= 0`, or `flags` has neither
`MAP_PROT_READ` nor `MAP_PROT_WRITE`, or the system-wide count equals
`MAX_MMAPS_SYS`, or all `MAX_MMAPS_PROC` slots are used, then `mmap` returns -1
and the whole kernel state (region table, `mmap_sp`, system-wide counter, file
objects, page table, allocator) is unchanged, whatever the helper functions
are. -/
theorem C8_mmap_rejects (X : Helpers) (k : Kernel) (f : Nat) (off len flags : Int)
    (h : f = 0 ∨ (k.fs.ftable f).readable = 0 ∨ ¬ ((PGSIZE : Int) ∣ off) ∨ len ≤ 0 ∨
      (toU32 flags &&& MAP_PROT_READ = 0 ∧ toU32 flags &&& MAP_PROT_WRITE = 0) ∨
      k.num_system_mmap_areas = MAX_MMAPS_SYS ∨
      (∀ i, i < MAX_MMAPS_PROC → (k.p.mmaps i).used ≠ 0)) :
    mmap X k f off len flags = (-1, k) := by
  unfold mmap
  by_cases c1 : f = 0 ∨ (k.fs.ftable f).readable = 0
  · rw [if_pos c1]
  rw [if_neg c1]
  by_cases c2 : Int.tmod off PGSIZE ≠ 0
  · rw [if_pos c2]
  rw [if_neg c2]
  by_cases c3 : len ≤ 0
  · rw [if_pos c3]
  rw [if_neg c3]
  by_cases c4 : toU32 flags &&& (MAP_PROT_READ ||| MAP_PROT_WRITE) = 0
  · rw [if_pos c4]
  rw [if_neg c4]
  by_cases c5 : k.num_system_mmap_areas = MAX_MMAPS_SYS
  · rw [if_pos c5]
  rw [if_neg c5]
  rcases h with h | h | h | h | h | h | h
  · exact absurd (Or.inl h) c1
  · exact absurd (Or.inr h) c1
  · exact absurd (Int.dvd_of_tmod_eq_zero (not_not.mp c2)) h
  · exact absurd h c3
  · exfalso
    apply c4
    rw [Nat.and_or_distrib_left, h.1, h.2]
    rfl
  · exact absurd h c5
  · simp only [mmapFreeSlot_full k.p.mmaps h, ↓reduceIte]

/-- Witness for C8: a null file pointer in a fresh process. -/
theorem C8_mmap_rejects_witness :
    mmap demoHelpers freshKernel 0 0 4096 2 = (-1, freshKernel) :=
  C8_mmap_rejects demoHelpers freshKernel 0 0 4096 2 (Or.inl rfl)

theorem toU32_of_range (x : Int) (h0 : 0 ≤ x) (h1 : x < 4294967296) :
    ((toU32 x : Nat) : Int) = x := by
  unfold toU32
  rw [Int.emod_eq_of_lt h0 h1]
  exact Int.toNat_of_nonneg h0

theorem or_eq_zero_parts (a b : Nat) (h : a ||| b = 0) : a = 0 ∧ b = 0 := by
  have hb : ∀ i, (a.testBit i || b.testBit i) = false := by
    intro i
    rw [← Nat.testBit_or, h]
    exact Nat.zero_testBit i
  constructor
  · apply Nat.eq_of_testBit_eq
    intro i
    have := hb i
    rw [Nat.zero_testBit]
    cases hx : a.testBit i
    · rfl
    · rw [hx] at this; simp at this
  · apply Nat.eq_of_testBit_eq
    intro i
    have := hb i
    rw [Nat.zero_testBit]
    cases hx : b.testBit i
    · rfl
    · rw [hx] at this; simp at this

/-- The result of `mmap` on its success path. -/
theorem mmap_success_shape (X : Helpers) (k : Kernel) (f : Nat) (off len flags : Int)
    (i : Nat) (hf : f ≠ 0) (hr : (k.fs.ftable f).readable ≠ 0)
    (hoff : (PGSIZE : Int) ∣ off) (hlen : 0 < len)
    (hfl : toU32 flags &&& MAP_PROT_READ ≠ 0 ∨ toU32 flags &&& MAP_PROT_WRITE ≠ 0)
    (hsys : k.num_system_mmap_areas ≠ MAX_MMAPS_SYS)
    (hi : i < MAX_MMAPS_PROC) (hu : (k.p.mmaps i).used = 0)
    (hfirst : ∀ j, j < i → (k.p.mmaps j).used ≠ 0)
    (halloc : (mmapAlloc X k len).1 ≠ 0) (hread : (mmapRead X k f off len).1 ≠ 0) :
    mmap X k f off len flags =
      (toInt32 (mmapAddr k len),
        { kmem := (mmapRead X k f off len).2.2
          fs := (filedup (mmapRead X k f off len).2.1 f).2
          num_system_mmap_areas := k.num_system_mmap_areas + 1
          p := { k.p with
            pgdir := mmapProtect (mmapAlloc X k len).2.2
              ((PGROUNDUP (add32 (mmapAddr k len) (toU32 len)) -
                PGROUNDDOWN (mmapAddr k len)) / PGSIZE)
              (PGROUNDDOWN (mmapAddr k len))
            mmap_sp := mmapAddr k len
            mmaps := Function.update k.p.mmaps i
              { addr := mmapAddr k len, file := f, offset := toU32 off,
                length := toU32 len, flags := flags, used := 1, dirty := 0 } } }) := by
  have c1 : ¬ (f = 0 ∨ (k.fs.ftable f).readable = 0) := by
    rintro (h | h)
    · exact hf h
    · exact hr h
  have c2 : ¬ Int.tmod off PGSIZE ≠ 0 := not_not.mpr (Int.tmod_eq_zero_of_dvd hoff)
  have c3 : ¬ len ≤ 0 := by omega
  have c4 : ¬ toU32 flags &&& (MAP_PROT_READ ||| MAP_PROT_WRITE) = 0 := by
    intro h
    rw [Nat.and_or_distrib_left] at h
    have h2 := or_eq_zero_parts _ _ h
    rcases hfl with h1 | h1
    · exact h1 h2.1
    · exact h1 h2.2
  have c6 : i ≠ MAX_MMAPS_PROC := Nat.ne_of_lt hi
  unfold mmap
  rw [if_neg c1, if_neg c2, if_neg c3, if_neg c4, if_neg hsys]
  simp only [mmapFreeSlot_first k.p.mmaps i hi hu hfirst, if_neg c6, if_neg halloc,
    if_neg hread, filedup]

/-- What the search loop of `munmap` returns, over the slots `i0 .. i0+n-1`. -/
theorem munmapLookup_spec (mm : Nat → mmap_area) (addr : Nat) (length : Int) :
    ∀ (n i0 : Nat),
      (munmapLookup mm addr length n i0 = Lookup.absent ∧
        ∀ j, i0 ≤ j → j < i0 + n → ¬ UsedAt mm addr j) ∨
      (∃ i, i0 ≤ i ∧ i < i0 + n ∧ UsedAt mm addr i ∧
        (∀ j, i0 ≤ j → j < i → ¬ UsedAt mm addr j) ∧
        ((munmapLookup mm addr length n i0 = Lookup.found i ∧
            (mm i).length = toU32 length) ∨
          (munmapLookup mm addr length n i0 = Lookup.mismatch ∧
            (mm i).length ≠ toU32 length))) := by
  intro n
  induction n with
  | zero =>
    intro i0
    left
    exact ⟨rfl, fun j h1 h2 => by omega⟩
  | succ n ih =>
    intro i0
    by_cases hm : (mm i0).used ≠ 0 ∧ (mm i0).addr = addr
    · right
      refine ⟨i0, Nat.le_refl _, by omega, hm, fun j h1 h2 => by omega, ?_⟩
      by_cases hl : (mm i0).length = toU32 length
      · left
        exact ⟨by simp only [munmapLookup, if_pos hm, if_pos hl], hl⟩
      · right
        exact ⟨by simp only [munmapLookup, if_pos hm, if_neg hl], hl⟩
    · have hstep : munmapLookup mm addr length (n + 1) i0 =
          munmapLookup mm addr length n (i0 + 1) := by
        simp only [munmapLookup, if_neg hm]
      rw [hstep]
      rcases ih (i0 + 1) with ⟨h1, h2⟩ | ⟨i, h1, h2, h3, h4, h5⟩
      · left
        refine ⟨h1, fun j hj1 hj2 => ?_⟩
        by_cases hj : j = i0
        · subst hj; exact hm
        · exact h2 j (by omega) (by omega)
      · right
        refine ⟨i, by omega, by omega, h3, fun j hj1 hj2 => ?_, h5⟩
        by_cases hj : j = i0
        · subst hj; exact hm
        · exact h4 j (by omega) hj2

theorem firstUsedAt_unique (mm : Nat → mmap_area) (addr i j : Nat)
    (hi : FirstUsedAt mm addr i) (hj : FirstUsedAt mm addr j) : i = j := by
  rcases Nat.lt_trichotomy i j with h | h | h
  · exact absurd hi.2.1 (hj.2.2 i h)
  · exact h
  · exact absurd hj.2.1 (hi.2.2 j h)

/-- The three outcomes of `munmap` after its argument check, by the result of
the search loop. -/
theorem munmap_cases (L : Layout) (X : Helpers) (k : Kernel) (addr : Nat) (length : Int)
    (hok : ¬ (addr % PGSIZE ≠ 0 ∨ length ≤ 0)) :
    ((∀ j, j < MAX_MMAPS_PROC → ¬ UsedAt k.p.mmaps addr j) ∧
      munmap L X k addr length = (0, k)) ∨
    (∃ i, FirstUsedAt k.p.mmaps addr i ∧
      (((k.p.mmaps i).length = toU32 length ∧ (munmap L X k addr length).1 = 0) ∨
        ((k.p.mmaps i).length ≠ toU32 length ∧ munmap L X k addr length = (-1, k)))) := by
  rcases munmapLookup_spec k.p.mmaps addr length MAX_MMAPS_PROC 0 with
    ⟨h1, h2⟩ | ⟨i, _, h2, h3, h4, h5⟩
  · left
    refine ⟨fun j hj => h2 j (Nat.zero_le _) (by omega), ?_⟩
    simp only [munmap, if_neg hok, h1]
  · right
    refine ⟨i, ⟨by omega, h3, fun j hj => h4 j (Nat.zero_le _) hj⟩, ?_⟩
    rcases h5 with ⟨h5, h6⟩ | ⟨h5, h6⟩
    · left
      refine ⟨h6, ?_⟩
      simp only [munmap, if_neg hok, h5]
    · right
      refine ⟨h6, ?_⟩
      simp only [munmap, if_neg hok, h5]

/-- For every state and every call, `munmap(addr, length)` returns -1 exactly
when `addr` is not a multiple of `PGSIZE`, or `length <= 0`, or the
lowest-numbered used region with that `addr` has a recorded length different
from `length`; in every other case it returns 0; and whenever the result is -1
or no used region has that `addr`, the whole kernel state (region table,
`mmap_sp`, system-wide counter, page table, files) is unchanged. -/
theorem munmap_result_first_used (L : Layout) (X : Helpers) (k : Kernel) (addr : Nat)
    (length : Int) :
    ((munmap L X k addr length).1 = -1 ↔
      (addr % PGSIZE ≠ 0 ∨ length ≤ 0 ∨
        ∃ i, FirstUsedAt k.p.mmaps addr i ∧ (k.p.mmaps i).length ≠ toU32 length)) ∧
    ((munmap L X k addr length).1 ≠ -1 → (munmap L X k addr length).1 = 0) ∧
    ((munmap L X k addr length).1 = -1 → (munmap L X k addr length).2 = k) ∧
    ((∀ j, j < MAX_MMAPS_PROC → ¬ UsedAt k.p.mmaps addr j) →
      (munmap L X k addr length).2 = k) := by
  by_cases hok : addr % PGSIZE ≠ 0 ∨ length ≤ 0
  · have hr : munmap L X k addr length = (-1, k) := by
      simp only [munmap, if_pos hok]
    rw [hr]
    refine ⟨⟨fun _ => ?_, fun _ => rfl⟩, fun h => absurd rfl h, fun _ => rfl, fun _ => rfl⟩
    rcases hok with h | h
    · exact Or.inl h
    · exact Or.inr (Or.inl h)
  · rcases munmap_cases L X k addr length hok with ⟨hno, hr⟩ | ⟨i, hi, ⟨hl, hr⟩ | ⟨hl, hr⟩⟩
    · rw [hr]
      refine ⟨⟨fun h => absurd (show (0 : Int) = -1 from h) (by decide), ?_⟩, fun _ => rfl,
        fun _ => rfl, fun _ => rfl⟩
      rintro (h | h | ⟨i, hi, _⟩)
      · exact absurd (Or.inl h) hok
      · exact absurd (Or.inr h) hok
      · exact absurd hi.2.1 (hno i hi.1)
    · refine ⟨⟨fun h => ?_, ?_⟩, fun _ => hr, fun h => ?_, fun hno => ?_⟩
      · rw [hr] at h; exact absurd h (by decide)
      · rintro (h | h | ⟨j, hj, hlj⟩)
        · exact absurd (Or.inl h) hok
        · exact absurd (Or.inr h) hok
        · rw [← firstUsedAt_unique _ _ _ _ hi hj] at hlj
          exact absurd hl hlj
      · rw [hr] at h; exact absurd h (by decide)
      · exact absurd hi.2.1 (hno i hi.1)
    · rw [hr]
      exact ⟨⟨fun _ => Or.inr (Or.inr ⟨i, hi, hl⟩), fun _ => rfl⟩, fun h => absurd rfl h,
        fun _ => rfl, fun _ => rfl⟩

/-! ## Theorems: `munmap` on its success path -/

theorem munmapMin_fixed (mm : Nat → mmap_area) (i : Nat) :
    ∀ (n j m : Nat), ¬ m > (mm i).addr → munmapMin mm i n j m = m := by
  intro n
  induction n with
  | zero => intro j m _; rfl
  | succ n ih =>
    intro j m hm
    simp only [munmapMin, if_neg hm, ite_self]
    exact ih (j + 1) m hm

theorem munmapMin_hit (mm : Nat → mmap_area) (i : Nat) :
    ∀ (n j m : Nat), (∃ t, j ≤ t ∧ t < j + n ∧ i ≠ t) →
      munmapMin mm i n j m = if m > (mm i).addr then (mm i).addr else m := by
  intro n
  induction n with
  | zero =>
    intro j m ht
    obtain ⟨t, h1, h2, _⟩ := ht
    omega
  | succ n ih =>
    intro j m ht
    by_cases hij : i ≠ j
    · simp only [munmapMin, if_pos hij]
      by_cases hm : m > (mm i).addr
      · rw [if_pos hm]
        exact munmapMin_fixed mm i n (j + 1) _ (by omega)
      · rw [if_neg hm]
        exact munmapMin_fixed mm i n (j + 1) _ hm
    · simp only [munmapMin, if_neg hij]
      apply ih
      obtain ⟨t, h1, h2, h3⟩ := ht
      refine ⟨t, ?_, by omega, h3⟩
      have : t ≠ j := fun e => hij (e ▸ h3)
      omega

/-- The loop of `munmap` step 3 only ever reads the slot being unmapped: its
result is the smaller of the start value and that slot's `addr`. -/
theorem munmapMin_eq (mm : Nat → mmap_area) (i m0 : Nat) :
    munmapMin mm i MAX_MMAPS_PROC 0 m0 = if m0 > (mm i).addr then (mm i).addr else m0 := by
  apply munmapMin_hit
  by_cases h : i = 0
  · exact ⟨1, by decide, by decide, by omega⟩
  · exact ⟨0, by decide, by decide, h⟩

theorem munmapLookup_found (mm : Nat → mmap_area) (addr : Nat) (length : Int) (i : Nat)
    (hi : FirstUsedAt mm addr i) (hlen : (mm i).length = toU32 length) :
    munmapLookup mm addr length MAX_MMAPS_PROC 0 = Lookup.found i := by
  rcases munmapLookup_spec mm addr length MAX_MMAPS_PROC 0 with
    ⟨_, h2⟩ | ⟨j, _, h2, h3, h4, h5⟩
  · exact absurd hi.2.1 (h2 i (Nat.zero_le _) (by have := hi.1; omega))
  · have hj : FirstUsedAt mm addr j :=
      ⟨by omega, h3, fun q hq => h4 q (Nat.zero_le _) hq⟩
    have hij : i = j := firstUsedAt_unique mm addr i j hi hj
    subst hij
    rcases h5 with ⟨h5, _⟩ | ⟨_, h6⟩
    · exact h5
    · exact absurd hlen h6

/-- The result of `munmap` when its search finds slot `i`. -/
theorem munmap_found_shape (L : Layout) (X : Helpers) (k : Kernel) (addr : Nat)
    (length : Int) (i : Nat) (hok : ¬ (addr % PGSIZE ≠ 0 ∨ length ≤ 0))
    (hl : munmapLookup k.p.mmaps addr length MAX_MMAPS_PROC 0 = Lookup.found i) :
    munmap L X k addr length =
      (0,
        { kmem := (X.deallocuvm k.kmem k.p.pgdir (add32 addr (toU32 length)) addr).2.1
          fs :=
            if (k.p.mmaps i).dirty ≠ 0 then
              munmapWriteBack L X k.p.pgdir k.kmem.mem (k.p.mmaps i)
                (((k.p.mmaps i).length + PGSIZE - 1) / PGSIZE) 0 k.fs
            else k.fs
          num_system_mmap_areas := k.num_system_mmap_areas - 1
          p := { k.p with
            pgdir := (X.deallocuvm k.kmem k.p.pgdir (add32 addr (toU32 length)) addr).2.2
            mmap_sp :=
              if sub32 L.KERNBASE PGSIZE > (k.p.mmaps i).addr then (k.p.mmaps i).addr
              else sub32 L.KERNBASE PGSIZE
            mmaps := Function.update k.p.mmaps i { k.p.mmaps i with used := 0 } } }) := by
  simp only [munmap, if_neg hok, hl, munmapMin_eq]

theorem oneMapped_shape :
    oneMapped.p.mmaps = Function.update (fun _ => noArea) 0
      { addr := 2147479552, file := 1, offset := 0, length := 4096, flags := 2,
        used := 1, dirty := 0 } := by
  unfold oneMapped
  rw [mmap_success_shape demoHelpers freshKernel 1 0 4096 2 0 (by decide) (by decide)
    (by decide) (by decide) (Or.inr (by decide)) (by decide) (by decide) rfl
    (fun j hj => absurd hj (Nat.not_lt_zero j)) (by decide) (by decide)]
  rfl

/-- C11 (evaluation at the failing inputs). With regions at `0x7FFFF000`
(slot 0) and `0x7FFFE000` (slot 1), `munmap(0x7FFFF000, 4096)` returns 0, frees
slot 0, lowers the system-wide counter by one and leaves slot 1 unchanged, but
sets `mmap_sp` to `0x7FFFF000`, the address of the region just unmapped,
although the only remaining used region starts at `0x7FFFE000`. With the
single region at `0x7FFFF000`, the same call leaves no used region and
`mmap_sp = 0x7FFFF000`, not `KERNBASE`. -/
theorem C11_munmap_sp_evaluation :
    (∀ X : Helpers,
      (munmap xv6 X twoMapped 2147479552 4096).1 = 0 ∧
      ((munmap xv6 X twoMapped 2147479552 4096).2.p.mmaps 0).used = 0 ∧
      (munmap xv6 X twoMapped 2147479552 4096).2.num_system_mmap_areas =
        twoMapped.num_system_mmap_areas - 1 ∧
      (munmap xv6 X twoMapped 2147479552 4096).2.p.mmaps 1 = twoMapped.p.mmaps 1 ∧
      (twoMapped.p.mmaps 1).used = 1 ∧ (twoMapped.p.mmaps 1).addr = 2147475456 ∧
      (munmap xv6 X twoMapped 2147479552 4096).2.p.mmap_sp = 2147479552) ∧
    (∀ X : Helpers,
      (munmap xv6 X oneMapped 2147479552 4096).1 = 0 ∧
      (∀ j, ((munmap xv6 X oneMapped 2147479552 4096).2.p.mmaps j).used = 0) ∧
      (munmap xv6 X oneMapped 2147479552 4096).2.p.mmap_sp = 2147479552 ∧
      xv6.KERNBASE = 2147483648) := by
  have hok : ¬ (2147479552 % PGSIZE ≠ 0 ∨ (4096 : Int) ≤ 0) := by decide
  constructor
  · intro X
    have hl : munmapLookup twoMapped.p.mmaps 2147479552 4096 MAX_MMAPS_PROC 0 =
        Lookup.found 0 := by decide
    rw [munmap_found_shape xv6 X twoMapped 2147479552 4096 0 hok hl]
    refine ⟨rfl, ?_, rfl, ?_, by decide, by decide, ?_⟩
    · simp
    · simp [Function.update]
    · have ha : (twoMapped.p.mmaps 0).addr = 2147479552 := by decide
      simp only [ha]
      decide
  · intro X
    have hl : munmapLookup oneMapped.p.mmaps 2147479552 4096 MAX_MMAPS_PROC 0 =
        Lookup.found 0 := by decide
    rw [munmap_found_shape xv6 X oneMapped 2147479552 4096 0 hok hl]
    refine ⟨rfl, ?_, ?_, rfl⟩
    · intro j
      by_cases hj : j = 0
      · subst hj; simp
      · simp [Function.update, hj, oneMapped_shape, noArea]
    · have ha : (oneMapped.p.mmaps 0).addr = 2147479552 := by decide
      simp only [ha]
      decide

/-! ## Theorems: sequences of `mmap` and `munmap` calls -/

/-- What the slot search of `mmap` returns. -/
theorem mmapFreeSlot_spec (mm : Nat → mmap_area) :
    (mmapFreeSlot mm MAX_MMAPS_PROC 0 = MAX_MMAPS_PROC ∧
      ∀ i, i < MAX_MMAPS_PROC → (mm i).used ≠ 0) ∨
    (mmapFreeSlot mm MAX_MMAPS_PROC 0 < MAX_MMAPS_PROC ∧
      (mm (mmapFreeSlot mm MAX_MMAPS_PROC 0)).used = 0 ∧
      ∀ j, j < mmapFreeSlot mm MAX_MMAPS_PROC 0 → (mm j).used ≠ 0) := by
  by_cases hall : ∀ i, i < MAX_MMAPS_PROC → (mm i).used ≠ 0
  · left
    exact ⟨mmapFreeSlot_full mm hall, hall⟩
  · right
    have hex : ∃ i, i < MAX_MMAPS_PROC ∧ (mm i).used = 0 ∧ ∀ j, j < i → (mm j).used ≠ 0 := by
      by_cases h0 : (mm 0).used = 0
      · exact ⟨0, by decide, h0, fun j hj => absurd hj (Nat.not_lt_zero j)⟩
      by_cases h1 : (mm 1).used = 0
      · refine ⟨1, by decide, h1, fun j hj => ?_⟩
        have : j = 0 := by omega
        subst this; exact h0
      by_cases h2 : (mm 2).used = 0
      · refine ⟨2, by decide, h2, fun j hj => ?_⟩
        have : j = 0 ∨ j = 1 := by omega
        rcases this with e | e <;> subst e
        · exact h0
        · exact h1
      by_cases h3 : (mm 3).used = 0
      · refine ⟨3, by decide, h3, fun j hj => ?_⟩
        have : j = 0 ∨ j = 1 ∨ j = 2 := by omega
        rcases this with e | e | e <;> subst e
        · exact h0
        · exact h1
        · exact h2
      exfalso
      apply hall
      intro i hi
      have : i = 0 ∨ i = 1 ∨ i = 2 ∨ i = 3 := by
        simp only [MAX_MMAPS_PROC] at hi
        omega
      rcases this with e | e | e | e <;> subst e
      · exact h0
      · exact h1
      · exact h2
      · exact h3
    obtain ⟨i, hi, hu, hf⟩ := hex
    rw [mmapFreeSlot_first mm i hi hu hf]
    exact ⟨hi, hu, hf⟩

/-- A call of `mmap` that does not return -1 went through the success path:
validation passed, some slot `i` was the first unused one, and both helper
calls reported success. -/
theorem mmap_returned (X : Helpers) (k : Kernel) (f : Nat) (off len flags : Int)
    (h : (mmap X k f off len flags).1 ≠ -1) :
    ∃ i, i < MAX_MMAPS_PROC ∧ (k.p.mmaps i).used = 0 ∧
      (∀ j, j < i → (k.p.mmaps j).used ≠ 0) ∧
      f ≠ 0 ∧ (k.fs.ftable f).readable ≠ 0 ∧ (PGSIZE : Int) ∣ off ∧ 0 < len ∧
      (toU32 flags &&& MAP_PROT_READ ≠ 0 ∨ toU32 flags &&& MAP_PROT_WRITE ≠ 0) ∧
      k.num_system_mmap_areas ≠ MAX_MMAPS_SYS ∧
      (mmapAlloc X k len).1 ≠ 0 ∧ (mmapRead X k f off len).1 ≠ 0 := by
  unfold mmap at h
  by_cases c1 : f = 0 ∨ (k.fs.ftable f).readable = 0
  · rw [if_pos c1] at h; exact absurd rfl h
  rw [if_neg c1] at h
  by_cases c2 : Int.tmod off PGSIZE ≠ 0
  · rw [if_pos c2] at h; exact absurd rfl h
  rw [if_neg c2] at h
  by_cases c3 : len ≤ 0
  · rw [if_pos c3] at h; exact absurd rfl h
  rw [if_neg c3] at h
  by_cases c4 : toU32 flags &&& (MAP_PROT_READ ||| MAP_PROT_WRITE) = 0
  · rw [if_pos c4] at h; exact absurd rfl h
  rw [if_neg c4] at h
  by_cases c5 : k.num_system_mmap_areas = MAX_MMAPS_SYS
  · rw [if_pos c5] at h; exact absurd rfl h
  rw [if_neg c5] at h
  rcases mmapFreeSlot_spec k.p.mmaps with ⟨hfull, _⟩ | ⟨hi, hu, hfirst⟩
  · simp only [hfull, ↓reduceIte] at h
    exact absurd rfl h
  · have c6 : mmapFreeSlot k.p.mmaps MAX_MMAPS_PROC 0 ≠ MAX_MMAPS_PROC := Nat.ne_of_lt hi
    simp only [if_neg c6] at h
    by_cases c7 : (mmapAlloc X k len).1 = 0
    · simp only [if_pos c7] at h
      exact absurd rfl h
    simp only [if_neg c7] at h
    by_cases c8 : (mmapRead X k f off len).1 = 0
    · simp only [if_pos c8] at h
      exact absurd rfl h
    refine ⟨_, hi, hu, hfirst, fun e => c1 (Or.inl e), fun e => c1 (Or.inr e),
      Int.dvd_of_tmod_eq_zero (not_not.mp c2), by omega, ?_, c5, c7, c8⟩
    by_cases hr : toU32 flags &&& MAP_PROT_READ = 0
    · right
      intro hw
      apply c4
      rw [Nat.and_or_distrib_left, hr, hw]
      rfl
    · exact Or.inl hr

/-- The region table and `mmap_sp` after a call of `mmap` that did not return
-1. -/
theorem mmap_table (X : Helpers) (k : Kernel) (f : Nat) (off len flags : Int)
    (h : (mmap X k f off len flags).1 ≠ -1) :
    ∃ i, i < MAX_MMAPS_PROC ∧ (k.p.mmaps i).used = 0 ∧
      (∀ j, j < i → (k.p.mmaps j).used ≠ 0) ∧
      (mmap X k f off len flags).2.p.mmaps = Function.update k.p.mmaps i
        { addr := mmapAddr k len, file := f, offset := toU32 off, length := toU32 len,
          flags := flags, used := 1, dirty := 0 } ∧
      (mmap X k f off len flags).2.p.mmap_sp = mmapAddr k len := by
  obtain ⟨i, hi, hu, hfirst, hf, hr, hoff, hlen, hfl, hsys, halloc, hread⟩ :=
    mmap_returned X k f off len flags h
  refine ⟨i, hi, hu, hfirst, ?_, ?_⟩
  · rw [mmap_success_shape X k f off len flags i hf hr hoff hlen hfl hsys hi hu hfirst halloc
      hread]
  · rw [mmap_success_shape X k f off len flags i hf hr hoff hlen hfl hsys hi hu hfirst halloc
      hread]

/-- C12 (evaluation at the failing input, for arbitrary helper functions): if
the three `mmap` calls of the sequence `mmap(f,0,4096,W); mmap(f,0,4096,W);
munmap(0x7FFFF000,4096); mmap(f,0,4096,W)` run from a fresh process do not
return -1, then afterwards slots 0 and 1 are both used and both describe the
range `[0x7FFFE000, 0x7FFFF000)`: two used regions of the process overlap. -/
theorem C12_regions_overlap (X : Helpers)
    (r1 : (mmap X freshKernel 1 0 4096 2).1 ≠ -1)
    (r2 : (mmap X (overlapStep1 X) 1 0 4096 2).1 ≠ -1)
    (r3 : (mmap X (overlapStep3 X) 1 0 4096 2).1 ≠ -1) :
    overlapStep4 X = runMmapCalls xv6 X freshKernel
      [MmapCall.mmap 1 0 4096 2, MmapCall.mmap 1 0 4096 2,
        MmapCall.munmap 2147479552 4096, MmapCall.mmap 1 0 4096 2] ∧
    ((overlapStep4 X).p.mmaps 0).used = 1 ∧ ((overlapStep4 X).p.mmaps 1).used = 1 ∧
    ((overlapStep4 X).p.mmaps 0).addr = 2147475456 ∧
    ((overlapStep4 X).p.mmaps 1).addr = 2147475456 ∧
    ((overlapStep4 X).p.mmaps 0).length = 4096 ∧
    ((overlapStep4 X).p.mmaps 1).length = 4096 := by
  refine ⟨rfl, ?_⟩
  -- first call: slot 0 at 0x7FFFF000
  obtain ⟨i1, _, hu1, hf1, ht1, hs1⟩ := mmap_table X freshKernel 1 0 4096 2 r1
  have e1 : i1 = 0 := by
    by_contra hne
    exact hf1 0 (Nat.pos_of_ne_zero hne) rfl
  subst e1
  have ha1 : mmapAddr freshKernel 4096 = 2147479552 := by decide
  rw [ha1] at ht1 hs1
  -- second call: slot 1 at 0x7FFFE000
  obtain ⟨i2, hi2, hu2, hf2, ht2, hs2⟩ := mmap_table X (overlapStep1 X) 1 0 4096 2 r2
  have hm1 : (overlapStep1 X).p.mmaps = Function.update freshKernel.p.mmaps 0
      { addr := 2147479552, file := 1, offset := toU32 0, length := toU32 4096,
        flags := 2, used := 1, dirty := 0 } := ht1
  have hsp1 : (overlapStep1 X).p.mmap_sp = 2147479552 := hs1
  have e2 : i2 = 1 := by
    have h0 : i2 ≠ 0 := by
      intro e
      rw [e, hm1] at hu2
      simp at hu2
    by_contra hne
    have h1lt : 1 < i2 := by omega
    have := hf2 1 h1lt
    rw [hm1] at this
    exact this (by simp [Function.update, freshKernel, noArea])
  subst e2
  have ha2 : mmapAddr (overlapStep1 X) 4096 = 2147475456 := by
    simp only [mmapAddr, hsp1]
    decide
  rw [ha2, hm1] at ht2
  rw [ha2] at hs2
  have hm2 : (overlapStep2 X).p.mmaps = _ := ht2
  have hsp2 : (overlapStep2 X).p.mmap_sp = 2147475456 := hs2
  -- munmap of the first region
  have hok : ¬ (2147479552 % PGSIZE ≠ 0 ∨ (4096 : Int) ≤ 0) := by decide
  have hl : munmapLookup (overlapStep2 X).p.mmaps 2147479552 4096 MAX_MMAPS_PROC 0 =
      Lookup.found 0 := by
    rw [hm2]
    simp only [munmapLookup, MAX_MMAPS_PROC]
    rw [if_pos (by simp [Function.update]), if_pos (by simp [Function.update])]
  have hs3 := munmap_found_shape xv6 X (overlapStep2 X) 2147479552 4096 0 hok hl
  have hm3 : (overlapStep3 X).p.mmaps = Function.update (overlapStep2 X).p.mmaps 0
      { (overlapStep2 X).p.mmaps 0 with used := 0 } := by
    unfold overlapStep3
    rw [hs3]
  have hsp3 : (overlapStep3 X).p.mmap_sp = 2147479552 := by
    unfold overlapStep3
    rw [hs3]
    have : ((overlapStep2 X).p.mmaps 0).addr = 2147479552 := by
      rw [hm2]; simp [Function.update]
    simp only [this]
    decide
  -- third call: slot 0 again, at 0x7FFFE000
  obtain ⟨i4, _, hu4, hf4, ht4, _⟩ := mmap_table X (overlapStep3 X) 1 0 4096 2 r3
  have e4 : i4 = 0 := by
    by_contra hne
    have := hf4 0 (Nat.pos_of_ne_zero hne)
    rw [hm3] at this
    exact this (by simp)
  subst e4
  have ha4 : mmapAddr (overlapStep3 X) 4096 = 2147475456 := by
    simp only [mmapAddr, hsp3]
    decide
  rw [ha4, hm3, hm2] at ht4
  have hm4 : (overlapStep4 X).p.mmaps = _ := ht4
  rw [hm4]
  refine ⟨by simp, by simp [Function.update], by simp, by simp [Function.update], ?_, ?_⟩
  · simp; decide
  · simp [Function.update]; decide

/-- Witness for C12 with the stand-in helpers, which map pages without
looking at what is already mapped. -/
theorem C12_regions_overlap_witness :
    ((overlapStep4 demoHelpers).p.mmaps 0).used = 1 ∧
    ((overlapStep4 demoHelpers).p.mmaps 1).used = 1 ∧
    ((overlapStep4 demoHelpers).p.mmaps 0).addr = 2147475456 ∧
    ((overlapStep4 demoHelpers).p.mmaps 1).addr = 2147475456 ∧
    ((overlapStep4 demoHelpers).p.mmaps 0).length = 4096 ∧
    ((overlapStep4 demoHelpers).p.mmaps 1).length = 4096 :=
  (C12_regions_overlap demoHelpers (by decide) (by decide) (by decide)).2

/-- When at most one used region has the address `addr`, `munmap(addr,
length)` returns -1 exactly when `addr` is not a multiple of `PGSIZE`, or
`length <= 0`, or a used region with that `addr` has a recorded length
different from `length`; in every other case it returns 0; and whenever the
result is -1 or no used region has that `addr`, the kernel state is
unchanged. -/
theorem munmap_result_distinct_addrs (L : Layout) (X : Helpers) (k : Kernel) (addr : Nat)
    (length : Int)
    (hd : ∀ i j, i < MAX_MMAPS_PROC → j < MAX_MMAPS_PROC → UsedAt k.p.mmaps addr i →
      UsedAt k.p.mmaps addr j → i = j) :
    ((munmap L X k addr length).1 = -1 ↔
      (addr % PGSIZE ≠ 0 ∨ length ≤ 0 ∨
        ∃ i, i < MAX_MMAPS_PROC ∧ UsedAt k.p.mmaps addr i ∧
          (k.p.mmaps i).length ≠ toU32 length)) ∧
    ((munmap L X k addr length).1 ≠ -1 → (munmap L X k addr length).1 = 0) ∧
    ((munmap L X k addr length).1 = -1 → (munmap L X k addr length).2 = k) ∧
    ((∀ j, j < MAX_MMAPS_PROC → ¬ UsedAt k.p.mmaps addr j) →
      (munmap L X k addr length).2 = k) := by
  obtain ⟨h1, h2, h3, h4⟩ := munmap_result_first_used L X k addr length
  refine ⟨?_, h2, h3, h4⟩
  rw [h1]
  constructor
  · rintro (h | h | ⟨i, hi, hl⟩)
    · exact Or.inl h
    · exact Or.inr (Or.inl h)
    · exact Or.inr (Or.inr ⟨i, hi.1, hi.2.1, hl⟩)
  · rintro (h | h | ⟨i, hi, hu, hl⟩)
    · exact Or.inl h
    · exact Or.inr (Or.inl h)
    · refine Or.inr (Or.inr ⟨i, ⟨hi, hu, fun j hj huj => ?_⟩, hl⟩)
      have := hd j i (by omega) hi huj hu
      omega

/-- C10 (evaluation at the failing input, for arbitrary helper functions): if
the three `mmap` calls of the sequence `mmap(f,0,4096,W); mmap(f,0,100,W);
munmap(0x7FFFF000,4096); mmap(f,0,4096,W)` run from a fresh process do not
return -1, then afterwards slot 1 is a used region with `addr = 0x7FFFE000`
and recorded length 100, and `munmap(0x7FFFE000, 4096)`, whose arguments are
page-aligned and positive, returns 0: the search stops at slot 0, a second
used region with the same `addr` and length 4096. -/
theorem C10_duplicate_addr_evaluation (X : Helpers)
    (r1 : (mmap X freshKernel 1 0 4096 2).1 ≠ -1)
    (r2 : (mmap X (overlapStep1 X) 1 0 100 2).1 ≠ -1)
    (r3 : (mmap X (shortStep3 X) 1 0 4096 2).1 ≠ -1) :
    shortStep4 X = runMmapCalls xv6 X freshKernel
      [MmapCall.mmap 1 0 4096 2, MmapCall.mmap 1 0 100 2,
        MmapCall.munmap 2147479552 4096, MmapCall.mmap 1 0 4096 2] ∧
    (munmap xv6 X (shortStep4 X) 2147475456 4096).1 = 0 ∧
    2147475456 % PGSIZE = 0 ∧ (0 : Int) < 4096 ∧
    ((shortStep4 X).p.mmaps 1).used ≠ 0 ∧
    ((shortStep4 X).p.mmaps 1).addr = 2147475456 ∧
    ((shortStep4 X).p.mmaps 1).length = 100 ∧
    (((shortStep4 X).p.mmaps 1).length : Int) ≠ 4096 ∧
    ((shortStep4 X).p.mmaps 0).used ≠ 0 ∧
    ((shortStep4 X).p.mmaps 0).addr = 2147475456 ∧
    ((shortStep4 X).p.mmaps 0).length = 4096 := by
  refine ⟨rfl, ?_⟩
  -- first call: slot 0 at 0x7FFFF000
  obtain ⟨i1, _, hu1, hf1, ht1, hs1⟩ := mmap_table X freshKernel 1 0 4096 2 r1
  have e1 : i1 = 0 := by
    by_contra hne
    exact hf1 0 (Nat.pos_of_ne_zero hne) rfl
  subst e1
  have ha1 : mmapAddr freshKernel 4096 = 2147479552 := by decide
  rw [ha1] at ht1 hs1
  -- second call: slot 1 at 0x7FFFE000, 100 bytes
  obtain ⟨i2, hi2, hu2, hf2, ht2, hs2⟩ := mmap_table X (overlapStep1 X) 1 0 100 2 r2
  have hm1 : (overlapStep1 X).p.mmaps = Function.update freshKernel.p.mmaps 0
      { addr := 2147479552, file := 1, offset := toU32 0, length := toU32 4096,
        flags := 2, used := 1, dirty := 0 } := ht1
  have hsp1 : (overlapStep1 X).p.mmap_sp = 2147479552 := hs1
  have e2 : i2 = 1 := by
    have h0 : i2 ≠ 0 := by
      intro e
      rw [e, hm1] at hu2
      simp at hu2
    by_contra hne
    have h1lt : 1 < i2 := by omega
    have := hf2 1 h1lt
    rw [hm1] at this
    exact this (by simp [Function.update, freshKernel, noArea])
  subst e2
  have ha2 : mmapAddr (overlapStep1 X) 100 = 2147475456 := by
    simp only [mmapAddr, hsp1]
    decide
  rw [ha2, hm1] at ht2
  rw [ha2] at hs2
  have hm2 : (shortStep2 X).p.mmaps = _ := ht2
  -- munmap of the first region
  have hok : ¬ (2147479552 % PGSIZE ≠ 0 ∨ (4096 : Int) ≤ 0) := by decide
  have hl : munmapLookup (shortStep2 X).p.mmaps 2147479552 4096 MAX_MMAPS_PROC 0 =
      Lookup.found 0 := by
    rw [hm2]
    simp only [munmapLookup, MAX_MMAPS_PROC]
    rw [if_pos (by simp [Function.update]), if_pos (by simp [Function.update])]
  have hs3 := munmap_found_shape xv6 X (shortStep2 X) 2147479552 4096 0 hok hl
  have hm3 : (shortStep3 X).p.mmaps = Function.update (shortStep2 X).p.mmaps 0
      { (shortStep2 X).p.mmaps 0 with used := 0 } := by
    unfold shortStep3
    rw [hs3]
  have hsp3 : (shortStep3 X).p.mmap_sp = 2147479552 := by
    unfold shortStep3
    rw [hs3]
    have : ((shortStep2 X).p.mmaps 0).addr = 2147479552 := by
      rw [hm2]; simp [Function.update]
    simp only [this]
    decide
  -- third call: slot 0 again, at 0x7FFFE000
  obtain ⟨i4, _, hu4, hf4, ht4, _⟩ := mmap_table X (shortStep3 X) 1 0 4096 2 r3
  have e4 : i4 = 0 := by
    by_contra hne
    have := hf4 0 (Nat.pos_of_ne_zero hne)
    rw [hm3] at this
    exact this (by simp)
  subst e4
  have ha4 : mmapAddr (shortStep3 X) 4096 = 2147475456 := by
    simp only [mmapAddr, hsp3]
    decide
  rw [ha4, hm3, hm2] at ht4
  have hm4 : (shortStep4 X).p.mmaps = _ := ht4
  have hok4 : ¬ (2147475456 % PGSIZE ≠ 0 ∨ (4096 : Int) ≤ 0) := by decide
  have hl4 : munmapLookup (shortStep4 X).p.mmaps 2147475456 4096 MAX_MMAPS_PROC 0 =
      Lookup.found 0 := by
    rw [hm4]
    simp only [munmapLookup, MAX_MMAPS_PROC]
    rw [if_pos (by simp [Function.update]), if_pos (by simp [Function.update])]
  have hlen1 : ((shortStep4 X).p.mmaps 1).length = 100 := by
    rw [hm4]
    simp [Function.update]
    decide
  refine ⟨?_, by decide, by decide, ?_, ?_, hlen1, ?_, ?_, ?_, ?_⟩
  · simp only [munmap, if_neg hok4, hl4]
  · rw [hm4]; simp [Function.update]
  · rw [hm4]; simp [Function.update]
  · rw [hlen1]; decide
  · rw [hm4]; simp
  · rw [hm4]; simp
  · rw [hm4]; simp; decide

/-- Witness for the evaluation of C10 with the stand-in helpers. -/
theorem C10_duplicate_addr_evaluation_witness :
    (munmap xv6 demoHelpers (shortStep4 demoHelpers) 2147475456 4096).1 = 0 ∧
    ((shortStep4 demoHelpers).p.mmaps 1).used ≠ 0 ∧
    ((shortStep4 demoHelpers).p.mmaps 1).addr = 2147475456 ∧
    ((shortStep4 demoHelpers).p.mmaps 1).length = 100 := by
  have h := C10_duplicate_addr_evaluation demoHelpers (by decide) (by decide) (by decide)
  exact ⟨h.2.1, h.2.2.2.2.1, h.2.2.2.2.2.1, h.2.2.2.2.2.2.1⟩

/-! ## Theorems: the round trip through a file -/

/-- C13 (evaluation at the failing input, helpers as the spec describes them).
A file whose first page holds 65 and whose second page holds 90 is mapped
writable at offset 0 with length 4096; the first store faults, the resolver
makes the page writable, and byte 66 is stored at the start of the region;
`munmap` returns 0 and writes 66 to file position 0. The second
`mmap(f, 0, 4096, MAP_PROT_WRITE)` on the same open file succeeds, but the
region it yields starts with 90, the byte at file position 4096: the read
started at the offset the file object had reached (4096), not at 0. With the
file object's offset put back to 0 the same call yields 66. -/
theorem C13_round_trip_evaluation :
    tripMapped.1 = 2147479552 ∧
    userLoad xv6 tripMapped.2 2147479552 = some 65 ∧
    userStore xv6 tripMapped.2 2147479552 66 = none ∧
    tripWritten.map (fun k => userLoad xv6 k 2147479552) = some (some 66) ∧
    tripUnmapped.map (fun r => r.1) = some 0 ∧
    tripUnmapped.map (fun r => (r.2.fs.inodes 1).data 0) = some 66 ∧
    tripUnmapped.map (fun r => (r.2.fs.ftable 1).off) = some 4096 ∧
    tripRemapped.map (fun r => r.1) = some 2147475456 ∧
    tripRemapped.map (fun r => userLoad xv6 r.2 2147475456) = some (some 90) ∧
    tripReopened.map (fun r => userLoad xv6 r.2 2147475456) = some (some 66) := by
  refine ⟨by decide, by decide, ?_, by decide, by decide, by decide, by decide, by decide,
    by decide, by decide⟩
  have hw : walkpgdir2 tripMapped.2.p.pgdir 2147479552 = some 4194309 := by decide
  simp only [userStore, hw]
  rw [if_neg (by decide)]

/-! ## Theorems: the write-back of `munmap` -/

theorem specWritei_contract (L : Layout) : WriteiContract (specHelpers L) := by
  intro fs m ip src off n
  refine ⟨rfl, ?_, ?_⟩
  · intro q pos h
    show ((Function.update fs.inodes ip _) q).data pos = (fs.inodes q).data pos
    by_cases hq : q = ip
    · subst hq
      have hc : ¬ (off ≤ pos ∧ pos < off + n) := by
        rcases h with h | h | h
        · exact absurd rfl h
        · omega
        · omega
      simp [hc]
    · simp [Function.update, hq]
  · intro q
    show ((Function.update fs.inodes ip _) q).size ≤ _
    by_cases hq : q = ip
    · subst hq
      simp
    · simp [Function.update, hq]

/-- The write-back loop writes whole pages: under the contract of `writei`,
`n` iterations from `stride` change only bytes of the region's inode at
positions `offset + stride .. offset + stride + n * PGSIZE - 1`, and the file
grows to at most the end of that range. -/
theorem munmapWriteBack_frame (L : Layout) (X : Helpers) (hX : WriteiContract X)
    (pg : PgDir) (m : Mem) (ma : mmap_area) :
    ∀ (n stride : Nat) (fs : FS), ma.offset + stride + n * PGSIZE ≤ WORD →
      (munmapWriteBack L X pg m ma n stride fs).ftable = fs.ftable ∧
      (∀ q pos, (q ≠ (fs.ftable ma.file).ip ∨ pos < ma.offset + stride ∨
          ma.offset + stride + n * PGSIZE ≤ pos) →
        ((munmapWriteBack L X pg m ma n stride fs).inodes q).data pos =
          (fs.inodes q).data pos) ∧
      (∀ q, ((munmapWriteBack L X pg m ma n stride fs).inodes q).size ≤
        max (fs.inodes q).size
          (if q = (fs.ftable ma.file).ip then ma.offset + stride + n * PGSIZE else 0)) := by
  intro n
  induction n with
  | zero =>
    intro stride fs _
    refine ⟨rfl, fun _ _ _ => rfl, fun q => ?_⟩
    exact Nat.le_max_left _ _
  | succ n ih =>
    intro stride fs hfit
    have hadd : add32 ma.offset stride = ma.offset + stride := by
      simp only [add32, WORD, PGSIZE] at hfit ⊢
      omega
    have hstep : ∀ fs1 : FS, fs1.ftable = fs.ftable →
        (∀ q pos, (q ≠ (fs.ftable ma.file).ip ∨ pos < ma.offset + stride ∨
            ma.offset + stride + PGSIZE ≤ pos) →
          (fs1.inodes q).data pos = (fs.inodes q).data pos) →
        (∀ q, (fs1.inodes q).size ≤ max (fs.inodes q).size
          (if q = (fs.ftable ma.file).ip then ma.offset + stride + PGSIZE else 0)) →
        (munmapWriteBack L X pg m ma n (stride + PGSIZE) fs1).ftable = fs.ftable ∧
        (∀ q pos, (q ≠ (fs.ftable ma.file).ip ∨ pos < ma.offset + stride ∨
            ma.offset + stride + (n + 1) * PGSIZE ≤ pos) →
          ((munmapWriteBack L X pg m ma n (stride + PGSIZE) fs1).inodes q).data pos =
            (fs.inodes q).data pos) ∧
        (∀ q, ((munmapWriteBack L X pg m ma n (stride + PGSIZE) fs1).inodes q).size ≤
          max (fs.inodes q).size
            (if q = (fs.ftable ma.file).ip then ma.offset + stride + (n + 1) * PGSIZE
              else 0)) := by
      intro fs1 hft hdata hsize
      have hfit1 : ma.offset + (stride + PGSIZE) + n * PGSIZE ≤ WORD := by
        have : (n + 1) * PGSIZE = n * PGSIZE + PGSIZE := Nat.succ_mul n PGSIZE
        omega
      obtain ⟨i1, i2, i3⟩ := ih (stride + PGSIZE) fs1 hfit1
      have hmul : (n + 1) * PGSIZE = n * PGSIZE + PGSIZE := Nat.succ_mul n PGSIZE
      refine ⟨i1.trans hft, fun q pos hq => ?_, fun q => ?_⟩
      · rw [i2 q pos (by rw [hft]; omega)]
        exact hdata q pos (by omega)
      · have h1 := i3 q
        have h2 := hsize q
        rw [hft] at h1
        by_cases hq : q = (fs.ftable ma.file).ip
        · simp only [hq, if_true] at h1 h2 ⊢
          omega
        · simp only [hq, if_false] at h1 h2 ⊢
          omega
    have heq : munmapWriteBack L X pg m ma (n + 1) stride fs =
        munmapWriteBack L X pg m ma n (stride + PGSIZE)
          (match walkpgdir2 pg (add32 ma.addr stride) with
            | none => fs
            | some e =>
              (X.writei fs m (fs.ftable ma.file).ip (P2V L (PTE_ADDR e))
                (add32 ma.offset stride) PGSIZE).2) := rfl
    rw [heq]
    cases hw : walkpgdir2 pg (add32 ma.addr stride) with
    | none =>
      exact hstep fs rfl (fun _ _ _ => rfl) (fun q => Nat.le_max_left _ _)
    | some e =>
      obtain ⟨c1, c2, c3⟩ := hX fs m (fs.ftable ma.file).ip (P2V L (PTE_ADDR e))
        (add32 ma.offset stride) PGSIZE
      rw [hadd] at c1 c2 c3
      rw [hadd]
      exact hstep _ c1 c2 c3

/-- What `munmap` does to the files when it finds slot `i`, under the contract
of `writei`: nothing when the region is not dirty; otherwise only bytes of the
region's inode at positions from `offset` up to `offset` plus the region's
length rounded up to whole pages can change, and the file grows to at most the
end of that range. For a length that is a multiple of `PGSIZE` this range is
`[offset, offset + length)`. -/
theorem munmap_write_back_frame (L : Layout) (X : Helpers) (hX : WriteiContract X)
    (k : Kernel) (addr : Nat) (length : Int) (i : Nat)
    (hok : ¬ (addr % PGSIZE ≠ 0 ∨ length ≤ 0))
    (hl : munmapLookup k.p.mmaps addr length MAX_MMAPS_PROC 0 = Lookup.found i)
    (hfit : (k.p.mmaps i).offset + ((k.p.mmaps i).length + PGSIZE - 1) / PGSIZE * PGSIZE
      ≤ WORD) :
    ((k.p.mmaps i).dirty = 0 → (munmap L X k addr length).2.fs = k.fs) ∧
    (∀ q pos, (q ≠ (k.fs.ftable (k.p.mmaps i).file).ip ∨ pos < (k.p.mmaps i).offset ∨
        (k.p.mmaps i).offset + ((k.p.mmaps i).length + PGSIZE - 1) / PGSIZE * PGSIZE ≤ pos) →
      ((munmap L X k addr length).2.fs.inodes q).data pos = (k.fs.inodes q).data pos) ∧
    (∀ q, ((munmap L X k addr length).2.fs.inodes q).size ≤
      max (k.fs.inodes q).size
        (if q = (k.fs.ftable (k.p.mmaps i).file).ip then
          (k.p.mmaps i).offset + ((k.p.mmaps i).length + PGSIZE - 1) / PGSIZE * PGSIZE
        else 0)) ∧
    ((k.p.mmaps i).length % PGSIZE = 0 →
      ((k.p.mmaps i).length + PGSIZE - 1) / PGSIZE * PGSIZE = (k.p.mmaps i).length) := by
  rw [munmap_found_shape L X k addr length i hok hl]
  have hwb := munmapWriteBack_frame L X hX k.p.pgdir k.kmem.mem (k.p.mmaps i)
    (((k.p.mmaps i).length + PGSIZE - 1) / PGSIZE) 0 k.fs (by simpa using hfit)
  simp only [Nat.add_zero] at hwb
  obtain ⟨_, h2, h3⟩ := hwb
  refine ⟨fun hd => ?_, ?_, ?_, ?_⟩
  · show (if (k.p.mmaps i).dirty ≠ 0 then _ else k.fs) = k.fs
    rw [if_neg (not_not.mpr hd)]
  · intro q pos hq
    show ((if (k.p.mmaps i).dirty ≠ 0 then _ else k.fs).inodes q).data pos = _
    by_cases hd : (k.p.mmaps i).dirty ≠ 0
    · rw [if_pos hd]; exact h2 q pos hq
    · rw [if_neg hd]
  · intro q
    show ((if (k.p.mmaps i).dirty ≠ 0 then _ else k.fs).inodes q).size ≤ _
    by_cases hd : (k.p.mmaps i).dirty ≠ 0
    · rw [if_pos hd]; exact h3 q
    · rw [if_neg hd]; exact Nat.le_max_left _ _
  · intro hm
    simp only [PGSIZE] at hm ⊢
    omega

/-- C14 (evaluation at the failing input, helpers as the spec describes them).
A 200-byte file of bytes 65 is mapped writable with offset 0 and length 100,
byte 66 is stored at the start of the region, and `munmap(addr, 100)` returns
0. The write-back saves the stored byte, but it writes the whole page: the file
byte at position 150, outside `[0, 100)`, changes from 65 to 0, and the file
grows from 200 to 4096 bytes, beyond `max(200, 0 + 100)`. -/
theorem C14_write_back_evaluation :
    shortMapped.1 = 2147479552 ∧
    (shortMapped.2.p.mmaps 0).offset = 0 ∧ (shortMapped.2.p.mmaps 0).length = 100 ∧
    shortWritten.map (fun k => (k.p.mmaps 0).dirty) = some 1 ∧
    shortUnmapped.map (fun r => r.1) = some 0 ∧
    shortUnmapped.map (fun r => (r.2.fs.inodes 1).data 0) = some 66 ∧
    (shortKernel.fs.inodes 1).data 150 = 65 ∧
    shortUnmapped.map (fun r => (r.2.fs.inodes 1).data 150) = some 0 ∧
    (shortKernel.fs.inodes 1).size = 200 ∧
    shortUnmapped.map (fun r => (r.2.fs.inodes 1).size) = some 4096 := by
  refine ⟨by decide, by decide, by decide, by decide, by decide, by decide, by decide,
    by decide, by decide, by decide⟩

/-! ## Theorems: what does hold of the region table -/

/-- The region table after any call of `mmap`: unchanged, or one unused slot
filled with a page-aligned address and the requested length. -/
theorem mmap_table_cases (X : Helpers) (k : Kernel) (f : Nat) (off len flags : Int) :
    (mmap X k f off len flags).2.p.mmaps = k.p.mmaps ∨
    (0 < len ∧ ∃ i, (mmap X k f off len flags).2.p.mmaps = Function.update k.p.mmaps i
      { addr := mmapAddr k len, file := f, offset := toU32 off, length := toU32 len,
        flags := flags, used := 1, dirty := 0 }) := by
  by_cases h : (mmap X k f off len flags).1 ≠ -1
  · right
    obtain ⟨i, _, _, _, _, _, _, hlen, _⟩ := mmap_returned X k f off len flags h
    obtain ⟨j, _, _, _, ht, _⟩ := mmap_table X k f off len flags h
    exact ⟨hlen, j, ht⟩
  · left
    unfold mmap at h ⊢
    by_cases c1 : f = 0 ∨ (k.fs.ftable f).readable = 0
    · rw [if_pos c1]
    rw [if_neg c1] at h ⊢
    by_cases c2 : Int.tmod off PGSIZE ≠ 0
    · rw [if_pos c2]
    rw [if_neg c2] at h ⊢
    by_cases c3 : len ≤ 0
    · rw [if_pos c3]
    rw [if_neg c3] at h ⊢
    by_cases c4 : toU32 flags &&& (MAP_PROT_READ ||| MAP_PROT_WRITE) = 0
    · rw [if_pos c4]
    rw [if_neg c4] at h ⊢
    by_cases c5 : k.num_system_mmap_areas = MAX_MMAPS_SYS
    · rw [if_pos c5]
    rw [if_neg c5] at h ⊢
    by_cases c6 : mmapFreeSlot k.p.mmaps MAX_MMAPS_PROC 0 = MAX_MMAPS_PROC
    · simp only [c6, ↓reduceIte]
    simp only [if_neg c6] at h ⊢
    by_cases c7 : (mmapAlloc X k len).1 = 0
    · simp only [if_pos c7]
    simp only [if_neg c7] at h ⊢
    by_cases c8 : (mmapRead X k f off len).1 = 0
    · simp only [if_pos c8]
    simp only [if_neg c8] at h
    exfalso
    apply h
    simp only [mmapAddr, toInt32, PGROUNDDOWN, PGSIZE, WORD]
    split_ifs <;> omega

/-- The region table after any call of `munmap`: unchanged, or one slot marked
unused. -/
theorem munmap_table_cases (L : Layout) (X : Helpers) (k : Kernel) (addr : Nat)
    (length : Int) :
    (munmap L X k addr length).2.p.mmaps = k.p.mmaps ∨
    ∃ i, (munmap L X k addr length).2.p.mmaps =
      Function.update k.p.mmaps i { k.p.mmaps i with used := 0 } := by
  by_cases hok : addr % PGSIZE ≠ 0 ∨ length ≤ 0
  · left
    simp only [munmap, if_pos hok]
  · cases hl : munmapLookup k.p.mmaps addr length MAX_MMAPS_PROC 0 with
    | found i =>
      right
      exact ⟨i, by rw [munmap_found_shape L X k addr length i hok hl]⟩
    | mismatch =>
      left
      simp only [munmap, if_neg hok, hl]
    | absent =>
      left
      simp only [munmap, if_neg hok, hl]

/-- The parts of the region invariant that every reachable process state has,
whatever the helper functions are: each used region has a page-aligned `addr`
and a length greater than 0. -/
theorem regions_aligned_nonempty (L : Layout) (X : Helpers) (k : Kernel)
    (h : MmapReachable L X k) :
    ∀ i, (k.p.mmaps i).used ≠ 0 →
      (k.p.mmaps i).addr % PGSIZE = 0 ∧ 0 < (k.p.mmaps i).length := by
  induction h with
  | fresh hf =>
    intro i hi
    exact absurd (hf.1 i) hi
  | @mmap k f off len flags _ hlen ih =>
    intro i hi
    rcases mmap_table_cases X k f off len flags with ht | ⟨hpos, j, ht⟩
    · rw [ht] at hi ⊢
      exact ih i hi
    · rw [ht] at hi ⊢
      by_cases hij : i = j
      · subst hij
        simp only [Function.update_same]
        constructor
        · simp only [mmapAddr, PGROUNDDOWN, PGSIZE]
          omega
        · have := toU32_of_range len (by omega) (by omega)
          omega
      · simp only [Function.update, hij, dite_false] at hi ⊢
        exact ih i hi
  | @munmap k addr length _ ih =>
    intro i hi
    rcases munmap_table_cases L X k addr length with ht | ⟨j, ht⟩
    · rw [ht] at hi ⊢
      exact ih i hi
    · rw [ht] at hi ⊢
      by_cases hij : i = j
      · subst hij
        simp at hi
      · simp only [Function.update, hij, dite_false] at hi ⊢
        exact ih i hi

end Xv6
